import Mathlib

/-!
Verification of `binmorphopy` (binary morphological operations).

Shallow embedding of `binmorphopy/morphology.py`: perimeter-restricted binary
dilation over rank-1/2/3 boolean grids, erosion by complement-duality, and the
opening/closing compositions, together with the private helpers
`_get_perimeter_image` and `_generate_array_indices`.

Conventions of the embedding:
* Python integers are modelled as `ℤ`; axis lengths as `ℕ`.
* A boolean grid of rank `d` is a structure holding its axis lengths and a
  total pixel function on `ℤ`-coordinates; only in-bounds coordinates are ever
  meaningful, and the algorithms below only read pixels in bounds wherever the
  original reads an array element.
* numpy's in-place OR-accumulation loop over perimeter coordinates is embedded
  as a `List.foldl` of pointwise-OR updates over the coordinate list produced
  by `np.where` (row-major order); since `|=` is an order-independent,
  idempotent accumulation, the fold's pixel-level meaning is the disjunction
  of all per-coordinate slice contributions.
-/

/-! ## `_generate_array_indices` (morphology.py lines 191-214) -/

/-- The function `_generate_array_indices(selem_center, selem_radius,
selem_length, result_length)`, translated line by line over `ℤ` (Python ints).  Note that
`result_end` is *not* clipped at `result_length`; the caller relies on Python
slice semantics to clip it. -/
def generate_array_indices (selem_center selem_radius selem_length result_length : ℤ) :
    (ℤ × ℤ) × (ℤ × ℤ) :=
  -- result_begin = selem_center - selem_radius
  let result_begin := selem_center - selem_radius
  -- result_end = selem_center + selem_radius + 1
  let result_end := selem_center + selem_radius + 1
  -- selem_begin = -result_begin if result_begin < 0 else 0
  let selem_begin := if result_begin < 0 then -result_begin else 0
  -- result_begin = max(0, result_begin)
  let result_begin := max 0 result_begin
  -- selem_end = selem_length - (result_end - result_length) if result_end > result_length
  --             else selem_length
  let selem_end := if result_end > result_length
      then selem_length - (result_end - result_length) else selem_length
  ((result_begin, result_end), (selem_begin, selem_end))

/-! ## Rank-1 grids -/

/-- A rank-1 boolean grid: axis length together with a total pixel function
(mirroring a 1-d `numpy.bool` array; only indices in `[0, len)` are
meaningful). -/
structure Img1 where
  len : ℕ
  pix : ℤ → Bool

/-- In-bounds predicate for rank 1. -/
def inB1 (l : ℕ) (x : ℤ) : Prop := 0 ≤ x ∧ x < (l : ℤ)

instance (l : ℕ) (x : ℤ) : Decidable (inB1 l x) := by unfold inB1; infer_instance

/-- The neighbor count of `_get_perimeter_image` restricted to rank 1:
`count[1:] += image[:-1]; count[:-1] += image[1:]`. -/
def count1 (img : Img1) (x : ℤ) : ℕ :=
  (if 1 ≤ x ∧ img.pix (x - 1) = true then 1 else 0) +
  (if x + 1 < (img.len : ℤ) ∧ img.pix (x + 1) = true then 1 else 0)

/-- The `inner` mask of the rank-1 branch of `_get_perimeter_image`:
`inner |= image == 2` (comparing the *boolean image* with 2, which is
elementwise false — the code as written, not `count == 2`), then
`inner[i] |= count[i] == 1` for `i` in `[0, -1]` (index `-1` aliases
`len - 1`). -/
def inner1 (img : Img1) (x : ℤ) : Bool :=
  (decide ((if img.pix x = true then (1 : ℕ) else 0) = 2)) ||
  (decide (x = 0) && decide (count1 img x = 1)) ||
  (decide (x = (img.len : ℤ) - 1) && decide (count1 img x = 1))

/-- Rank-1 branch of `_get_perimeter_image`: `image & (~inner)`. -/
def perimeter1 (img : Img1) (x : ℤ) : Bool :=
  img.pix x && !(inner1 img x)

/-- All in-bounds coordinates of a rank-1 axis, in increasing order. -/
def all_coords1 (l : ℕ) : List ℤ := (List.range l).map fun n : ℕ => (n : ℤ)

/-- The result of `np.where(perimeter_image)` for rank 1: the in-bounds coordinates of
perimeter cells in increasing order. -/
def perim_coords1 (img : Img1) : List ℤ :=
  (all_coords1 img.len).filter fun i => perimeter1 img i

/-- The contribution of the loop body
`out[jx_b:jx_e] |= selem[kx_b:kx_e]` at output index `x`, for the perimeter
coordinate `i`: `x` lies in the output slice (whose end is clipped at the
axis length by Python slice semantics) and the aligned structuring-element
entry is true.  `rx = sx // 2` as in the source. -/
def sliceCover1 (selem : Img1) (l : ℤ) (i x : ℤ) : Bool :=
  let s : ℤ := (selem.len : ℤ)
  let r : ℤ := s / 2
  let p := generate_array_indices i r s l
  decide (p.1.1 ≤ x) && decide (x < min p.1.2 l) && selem.pix (p.2.1 + (x - p.1.1))

/-- One iteration of the rank-1 dilation loop as a pointwise-OR update of the
output pixel function. -/
def slice_or1 (selem : Img1) (l : ℤ) (out : ℤ → Bool) (i : ℤ) : ℤ → Bool :=
  fun x => out x || sliceCover1 selem l i x

/-- Core of `binary_dilation` for rank 1 (validation and `out` plumbing are
modelled separately): seed the output with a copy of the image, then OR the
clipped structuring element over every perimeter coordinate. -/
def binary_dilation1 (image selem : Img1) : Img1 :=
  { len := image.len
    pix := (perim_coords1 image).foldl (slice_or1 selem (image.len : ℤ)) image.pix }

/-- Pixelwise complement (`~image`). -/
def compl1 (img : Img1) : Img1 := { len := img.len, pix := fun x => !img.pix x }

/-- Core of `binary_erosion` for rank 1: `~binary_dilation(~image, selem)`. -/
def binary_erosion1 (image selem : Img1) : Img1 :=
  compl1 (binary_dilation1 (compl1 image) selem)

/-- Core of `binary_closing` for rank 1: erosion of the dilation. -/
def binary_closing1 (image selem : Img1) : Img1 :=
  binary_erosion1 (binary_dilation1 image selem) selem

/-- Core of `binary_opening` for rank 1: dilation of the erosion. -/
def binary_opening1 (image selem : Img1) : Img1 :=
  binary_dilation1 (binary_erosion1 image selem) selem

/-! ### The reference dilation (spec side, rank 1)

Modelled from the spec: "the full reference dilation: the input unioned with
the edge-clipped element footprint placed at every foreground cell". -/

/-- The edge-clipped footprint of `selem` placed at cell `i` hits the
in-bounds cell `x`: `|x - i| ≤ r` and the element is true at offset
`x - i + r`. -/
def footprint_hits1 (selem : Img1) (l : ℤ) (i x : ℤ) : Bool :=
  let r : ℤ := (selem.len : ℤ) / 2
  decide (0 ≤ x) && decide (x < l) && decide (i - r ≤ x) && decide (x ≤ i + r) &&
    selem.pix (x - i + r)

/-- Coordinates of all foreground cells (rank 1). -/
def fg_coords1 (img : Img1) : List ℤ :=
  (all_coords1 img.len).filter fun i => img.pix i

/-- The reference dilation of the spec (rank 1): input unioned with the
edge-clipped footprint placed at every foreground cell. -/
def reference_dilation1 (image selem : Img1) : Img1 :=
  { len := image.len
    pix := fun x =>
      image.pix x ||
        (fg_coords1 image).any fun i => footprint_hits1 selem (image.len : ℤ) i x }

/-! ## Rank-2 grids -/

/-- A rank-2 boolean grid: axis lengths and a total pixel function. -/
structure Img2 where
  lx : ℕ
  ly : ℕ
  pix : ℤ → ℤ → Bool

/-- In-bounds predicate for rank 2. -/
def inB2 (lx ly : ℕ) (x y : ℤ) : Prop :=
  0 ≤ x ∧ x < (lx : ℤ) ∧ 0 ≤ y ∧ y < (ly : ℤ)

instance (lx ly : ℕ) (x y : ℤ) : Decidable (inB2 lx ly x y) := by
  unfold inB2; infer_instance

/-- The rank-2 neighbor count of `_get_perimeter_image` (both axes). -/
def count2 (img : Img2) (x y : ℤ) : ℕ :=
  (if 1 ≤ x ∧ img.pix (x - 1) y = true then 1 else 0) +
  (if x + 1 < (img.lx : ℤ) ∧ img.pix (x + 1) y = true then 1 else 0) +
  (if 1 ≤ y ∧ img.pix x (y - 1) = true then 1 else 0) +
  (if y + 1 < (img.ly : ℤ) ∧ img.pix x (y + 1) = true then 1 else 0)

/-- The `inner` mask of the rank-2 branch: `count == 4` anywhere, `count == 3`
on the first/last row and first/last column, `count == 2` at the four corners
(Python index `-1` aliases the last index). -/
def inner2 (img : Img2) (x y : ℤ) : Bool :=
  decide (count2 img x y = 4) ||
  ((decide (x = 0) || decide (x = (img.lx : ℤ) - 1)) && decide (count2 img x y = 3)) ||
  ((decide (y = 0) || decide (y = (img.ly : ℤ) - 1)) && decide (count2 img x y = 3)) ||
  ((decide (x = 0) || decide (x = (img.lx : ℤ) - 1)) &&
   (decide (y = 0) || decide (y = (img.ly : ℤ) - 1)) && decide (count2 img x y = 2))

/-- Rank-2 branch of `_get_perimeter_image`: `image & (~inner)`. -/
def perimeter2 (img : Img2) (x y : ℤ) : Bool :=
  img.pix x y && !(inner2 img x y)

/-- All in-bounds coordinates of a rank-2 grid, in row-major order. -/
def all_coords2 (lx ly : ℕ) : List (ℤ × ℤ) :=
  (List.range lx).flatMap fun a : ℕ => (List.range ly).map fun b : ℕ => ((a : ℤ), (b : ℤ))

/-- The result of `np.where(perimeter_image)` for rank 2: in-bounds perimeter coordinates in
row-major order. -/
def perim_coords2 (img : Img2) : List (ℤ × ℤ) :=
  (all_coords2 img.lx img.ly).filter fun p => perimeter2 img p.1 p.2

/-- The contribution of `out[jx_b:jx_e, jy_b:jy_e] |= selem[kx_b:kx_e, ky_b:ky_e]`
at output cell `(x, y)` for the perimeter coordinate `(i.1, i.2)` (per-axis
clipped windows, composed into one two-dimensional slice). -/
def sliceCover2 (selem : Img2) (lx ly : ℤ) (i : ℤ × ℤ) (x y : ℤ) : Bool :=
  let sx : ℤ := (selem.lx : ℤ)
  let sy : ℤ := (selem.ly : ℤ)
  let px := generate_array_indices i.1 (sx / 2) sx lx
  let py := generate_array_indices i.2 (sy / 2) sy ly
  decide (px.1.1 ≤ x) && decide (x < min px.1.2 lx) &&
  decide (py.1.1 ≤ y) && decide (y < min py.1.2 ly) &&
  selem.pix (px.2.1 + (x - px.1.1)) (py.2.1 + (y - py.1.1))

/-- One iteration of the rank-2 dilation loop as a pointwise-OR update. -/
def slice_or2 (selem : Img2) (lx ly : ℤ) (out : ℤ → ℤ → Bool) (i : ℤ × ℤ) :
    ℤ → ℤ → Bool :=
  fun x y => out x y || sliceCover2 selem lx ly i x y

/-- Core of `binary_dilation` for rank 2. -/
def binary_dilation2 (image selem : Img2) : Img2 :=
  { lx := image.lx, ly := image.ly
    pix := (perim_coords2 image).foldl (slice_or2 selem (image.lx : ℤ) (image.ly : ℤ))
      image.pix }

/-- Pixelwise complement (rank 2). -/
def compl2 (img : Img2) : Img2 :=
  { lx := img.lx, ly := img.ly, pix := fun x y => !img.pix x y }

/-- Core of `binary_erosion` for rank 2: `~binary_dilation(~image, selem)`. -/
def binary_erosion2 (image selem : Img2) : Img2 :=
  compl2 (binary_dilation2 (compl2 image) selem)

/-- Core of `binary_closing` for rank 2. -/
def binary_closing2 (image selem : Img2) : Img2 :=
  binary_erosion2 (binary_dilation2 image selem) selem

/-- Core of `binary_opening` for rank 2. -/
def binary_opening2 (image selem : Img2) : Img2 :=
  binary_dilation2 (binary_erosion2 image selem) selem

/-- The edge-clipped footprint of `selem` placed at `(i.1, i.2)` hits the
in-bounds cell `(x, y)` (spec side, rank 2). -/
def footprint_hits2 (selem : Img2) (lx ly : ℤ) (i : ℤ × ℤ) (x y : ℤ) : Bool :=
  let rx : ℤ := (selem.lx : ℤ) / 2
  let ry : ℤ := (selem.ly : ℤ) / 2
  decide (0 ≤ x) && decide (x < lx) && decide (0 ≤ y) && decide (y < ly) &&
  decide (i.1 - rx ≤ x) && decide (x ≤ i.1 + rx) &&
  decide (i.2 - ry ≤ y) && decide (y ≤ i.2 + ry) &&
  selem.pix (x - i.1 + rx) (y - i.2 + ry)

/-- Coordinates of all foreground cells (rank 2, row-major). -/
def fg_coords2 (img : Img2) : List (ℤ × ℤ) :=
  (all_coords2 img.lx img.ly).filter fun p => img.pix p.1 p.2

/-- The reference dilation of the spec (rank 2): input unioned with the
edge-clipped footprint placed at every foreground cell. -/
def reference_dilation2 (image selem : Img2) : Img2 :=
  { lx := image.lx, ly := image.ly
    pix := fun x y =>
      image.pix x y ||
        (fg_coords2 image).any fun i =>
          footprint_hits2 selem (image.lx : ℤ) (image.ly : ℤ) i x y }

/-! ## Rank-3 grids -/

/-- A rank-3 boolean grid: axis lengths and a total pixel function. -/
structure Img3 where
  lx : ℕ
  ly : ℕ
  lz : ℕ
  pix : ℤ → ℤ → ℤ → Bool

/-- In-bounds predicate for rank 3. -/
def inB3 (lx ly lz : ℕ) (x y z : ℤ) : Prop :=
  0 ≤ x ∧ x < (lx : ℤ) ∧ 0 ≤ y ∧ y < (ly : ℤ) ∧ 0 ≤ z ∧ z < (lz : ℤ)

instance (lx ly lz : ℕ) (x y z : ℤ) : Decidable (inB3 lx ly lz x y z) := by
  unfold inB3; infer_instance

/-- The rank-3 neighbor count of `_get_perimeter_image` (all three axes). -/
def count3 (img : Img3) (x y z : ℤ) : ℕ :=
  (if 1 ≤ x ∧ img.pix (x - 1) y z = true then 1 else 0) +
  (if x + 1 < (img.lx : ℤ) ∧ img.pix (x + 1) y z = true then 1 else 0) +
  (if 1 ≤ y ∧ img.pix x (y - 1) z = true then 1 else 0) +
  (if y + 1 < (img.ly : ℤ) ∧ img.pix x (y + 1) z = true then 1 else 0) +
  (if 1 ≤ z ∧ img.pix x y (z - 1) = true then 1 else 0) +
  (if z + 1 < (img.lz : ℤ) ∧ img.pix x y (z + 1) = true then 1 else 0)

/-- Whether `v` is the first or last index of an axis of length `l` (Python index
`-1` aliases `l - 1`). -/
def onBorder (l : ℕ) (v : ℤ) : Bool :=
  decide (v = 0) || decide (v = (l : ℤ) - 1)

/-- The `inner` mask of the rank-3 branch: `count == 6` anywhere, `count == 5`
on the six faces, `count == 4` on the twelve edges (the source ORs the
`[:, i, j]` and `[i, :, j]` slices twice; `|=` is idempotent so each pair is
embedded once), and `count == 3` at the eight corners. -/
def inner3 (img : Img3) (x y z : ℤ) : Bool :=
  decide (count3 img x y z = 6) ||
  (onBorder img.lx x && decide (count3 img x y z = 5)) ||
  (onBorder img.ly y && decide (count3 img x y z = 5)) ||
  (onBorder img.lz z && decide (count3 img x y z = 5)) ||
  (onBorder img.lx x && onBorder img.ly y && decide (count3 img x y z = 4)) ||
  (onBorder img.ly y && onBorder img.lz z && decide (count3 img x y z = 4)) ||
  (onBorder img.lx x && onBorder img.lz z && decide (count3 img x y z = 4)) ||
  (onBorder img.lx x && onBorder img.ly y && onBorder img.lz z &&
    decide (count3 img x y z = 3))

/-- Rank-3 branch of `_get_perimeter_image`: `image & (~inner)`. -/
def perimeter3 (img : Img3) (x y z : ℤ) : Bool :=
  img.pix x y z && !(inner3 img x y z)

/-- All in-bounds coordinates of a rank-3 grid, in row-major order. -/
def all_coords3 (lx ly lz : ℕ) : List (ℤ × ℤ × ℤ) :=
  (List.range lx).flatMap fun a : ℕ =>
    (List.range ly).flatMap fun b : ℕ =>
      (List.range lz).map fun c : ℕ => ((a : ℤ), (b : ℤ), (c : ℤ))

/-- The result of `np.where(perimeter_image)` for rank 3 (row-major order). -/
def perim_coords3 (img : Img3) : List (ℤ × ℤ × ℤ) :=
  (all_coords3 img.lx img.ly img.lz).filter fun p => perimeter3 img p.1 p.2.1 p.2.2

/-- The contribution of the three-axis slice OR at output cell `(x, y, z)`
for the perimeter coordinate `i`. -/
def sliceCover3 (selem : Img3) (lx ly lz : ℤ) (i : ℤ × ℤ × ℤ) (x y z : ℤ) : Bool :=
  let sx : ℤ := (selem.lx : ℤ)
  let sy : ℤ := (selem.ly : ℤ)
  let sz : ℤ := (selem.lz : ℤ)
  let px := generate_array_indices i.1 (sx / 2) sx lx
  let py := generate_array_indices i.2.1 (sy / 2) sy ly
  let pz := generate_array_indices i.2.2 (sz / 2) sz lz
  decide (px.1.1 ≤ x) && decide (x < min px.1.2 lx) &&
  decide (py.1.1 ≤ y) && decide (y < min py.1.2 ly) &&
  decide (pz.1.1 ≤ z) && decide (z < min pz.1.2 lz) &&
  selem.pix (px.2.1 + (x - px.1.1)) (py.2.1 + (y - py.1.1)) (pz.2.1 + (z - pz.1.1))

/-- One iteration of the rank-3 dilation loop as a pointwise-OR update. -/
def slice_or3 (selem : Img3) (lx ly lz : ℤ) (out : ℤ → ℤ → ℤ → Bool)
    (i : ℤ × ℤ × ℤ) : ℤ → ℤ → ℤ → Bool :=
  fun x y z => out x y z || sliceCover3 selem lx ly lz i x y z

/-- Core of `binary_dilation` for rank 3. -/
def binary_dilation3 (image selem : Img3) : Img3 :=
  { lx := image.lx, ly := image.ly, lz := image.lz
    pix := (perim_coords3 image).foldl
      (slice_or3 selem (image.lx : ℤ) (image.ly : ℤ) (image.lz : ℤ)) image.pix }

/-- Pixelwise complement (rank 3). -/
def compl3 (img : Img3) : Img3 :=
  { lx := img.lx, ly := img.ly, lz := img.lz, pix := fun x y z => !img.pix x y z }

/-- Core of `binary_erosion` for rank 3: `~binary_dilation(~image, selem)`. -/
def binary_erosion3 (image selem : Img3) : Img3 :=
  compl3 (binary_dilation3 (compl3 image) selem)

/-- Core of `binary_closing` for rank 3. -/
def binary_closing3 (image selem : Img3) : Img3 :=
  binary_erosion3 (binary_dilation3 image selem) selem

/-- Core of `binary_opening` for rank 3. -/
def binary_opening3 (image selem : Img3) : Img3 :=
  binary_dilation3 (binary_erosion3 image selem) selem

/-- The edge-clipped footprint of `selem` placed at `i` hits the in-bounds
cell `(x, y, z)` (spec side, rank 3). -/
def footprint_hits3 (selem : Img3) (lx ly lz : ℤ) (i : ℤ × ℤ × ℤ) (x y z : ℤ) : Bool :=
  let rx : ℤ := (selem.lx : ℤ) / 2
  let ry : ℤ := (selem.ly : ℤ) / 2
  let rz : ℤ := (selem.lz : ℤ) / 2
  decide (0 ≤ x) && decide (x < lx) && decide (0 ≤ y) && decide (y < ly) &&
  decide (0 ≤ z) && decide (z < lz) &&
  decide (i.1 - rx ≤ x) && decide (x ≤ i.1 + rx) &&
  decide (i.2.1 - ry ≤ y) && decide (y ≤ i.2.1 + ry) &&
  decide (i.2.2 - rz ≤ z) && decide (z ≤ i.2.2 + rz) &&
  selem.pix (x - i.1 + rx) (y - i.2.1 + ry) (z - i.2.2 + rz)

/-- Coordinates of all foreground cells (rank 3, row-major). -/
def fg_coords3 (img : Img3) : List (ℤ × ℤ × ℤ) :=
  (all_coords3 img.lx img.ly img.lz).filter fun p => img.pix p.1 p.2.1 p.2.2

/-- The reference dilation of the spec (rank 3). -/
def reference_dilation3 (image selem : Img3) : Img3 :=
  { lx := image.lx, ly := image.ly, lz := image.lz
    pix := fun x y z =>
      image.pix x y z ||
        (fg_coords3 image).any fun i =>
          footprint_hits3 selem (image.lx : ℤ) (image.ly : ℤ) (image.lz : ℤ) i x y z }

/-! ## Default structuring elements (binary_dilation, lines 32-44) -/

/-- Default rank-1 element: `np.ones(shape=[3])`. -/
def default_selem1 : Img1 := { len := 3, pix := fun _ => true }

/-- Default rank-2 element: 3×3 zeros with the central row and central column
set (`selem[1, :] = True; selem[:, 1] = True`). -/
def default_selem2 : Img2 :=
  { lx := 3, ly := 3, pix := fun a b => decide (a = 1) || decide (b = 1) }

/-- Default rank-3 element: 3×3×3 zeros with the three axis lines through the
center set (`selem[:,1,1] = selem[1,:,1] = selem[1,1,:] = True`). -/
def default_selem3 : Img3 :=
  { lx := 3, ly := 3, lz := 3
    pix := fun a b c =>
      (decide (b = 1) && decide (c = 1)) || (decide (a = 1) && decide (c = 1)) ||
      (decide (a = 1) && decide (b = 1)) }

/-! ## Call-level semantics: validation, the `out` buffer, and errors

The Python functions may raise; the spec's error taxonomy names the
`ValueError` for an even structuring-element axis `InvalidStructuringElement`
and the `RuntimeError` for rank > 3 `UnsupportedDimensionality`.  A call is
modelled as a pure function returning the raised error or the returned value,
*paired with the final contents of the caller-supplied output buffer* (so
that "the buffer is unmodified on failure" is expressible). -/

/-- The exceptions reachable from the morphology entry points.
`valueError` is raised for an even structuring-element axis (which the spec
calls `InvalidStructuringElement`), `runtimeError` for image rank > 3 (the
spec's `UnsupportedDimensionality`), and `indexError` is numpy's error when
a rank-0 array is sliced. -/
inductive MErr where
  | valueError
  | runtimeError
  | indexError
deriving DecidableEq

/-- Structuring-element handling of `binary_dilation` for rank 1: default
`np.ones([3])` when absent; raise `ValueError` when the axis length is even. -/
def validate_selem1 (selem : Option Img1) : Except MErr Img1 :=
  match selem with
  | none => .ok default_selem1
  | some s => if s.len % 2 = 0 then .error .valueError else .ok s

/-- Structuring-element handling for rank 2 (`any` even axis raises). -/
def validate_selem2 (selem : Option Img2) : Except MErr Img2 :=
  match selem with
  | none => .ok default_selem2
  | some s => if s.lx % 2 = 0 ∨ s.ly % 2 = 0 then .error .valueError else .ok s

/-- Structuring-element handling for rank 3. -/
def validate_selem3 (selem : Option Img3) : Except MErr Img3 :=
  match selem with
  | none => .ok default_selem3
  | some s => if s.lx % 2 = 0 ∨ s.ly % 2 = 0 ∨ s.lz % 2 = 0
      then .error .valueError else .ok s

/-- A full `binary_dilation` call (any rank; `I` is the grid type, `S` the
structuring-element type).  Returns `(returned value or error, final out
contents)`: validation failures happen before `out[:] = image[:]`, so they
leave the buffer untouched; on success with a supplied buffer the function
returns `None` and the buffer — seeded with a copy of the image and then
OR-updated — holds exactly the computed grid. -/
def dilation_call {I S : Type} (validate : Option S → Except MErr S)
    (core : I → S → I) (image : I) (selem : Option S) (out : Option I) :
    Except MErr (Option I) × Option I :=
  match validate selem with
  | .error e => (.error e, out)
  | .ok s =>
      let res := core image s
      match out with
      | none => (.ok (some res), none)
      | some _ => (.ok none, some res)

/-- A full `binary_erosion` call:
`out_image = binary_dilation(~image, selem, out)`, then return `~out_image`
(no buffer) or do `out[:] = ~out[:]` (buffer supplied). -/
def erosion_call {I S : Type} (validate : Option S → Except MErr S)
    (core : I → S → I) (compl : I → I) (image : I) (selem : Option S)
    (out : Option I) : Except MErr (Option I) × Option I :=
  match dilation_call validate core (compl image) selem out with
  | (.error e, b) => (.error e, b)
  | (.ok r, b) =>
      match out with
      | none => (.ok (r.map compl), none)
      | some _ => (.ok none, b.map compl)

/-- A full `binary_closing` call:
`binary_erosion(binary_dilation(image, selem), selem, out)`, returning the
result only when no buffer was supplied. -/
def closing_call {I S : Type} (validate : Option S → Except MErr S)
    (core : I → S → I) (compl : I → I) (image : I) (selem : Option S)
    (out : Option I) : Except MErr (Option I) × Option I :=
  match dilation_call validate core image selem none with
  | (.error e, _) => (.error e, out)
  | (.ok none, _) => (.ok none, out)   -- value-mode dilation always returns a grid
  | (.ok (some d), _) => erosion_call validate core compl d selem out

/-- A full `binary_opening` call:
`binary_dilation(binary_erosion(image, selem), selem, out)`. -/
def opening_call {I S : Type} (validate : Option S → Except MErr S)
    (core : I → S → I) (compl : I → I) (image : I) (selem : Option S)
    (out : Option I) : Except MErr (Option I) × Option I :=
  match erosion_call validate core compl image selem none with
  | (.error e, _) => (.error e, out)
  | (.ok none, _) => (.ok none, out)   -- value-mode erosion always returns a grid
  | (.ok (some e), _) => dilation_call validate core e selem out

/-! ## Rank dispatch (shape level)

`binary_dilation` reads `image.ndim`, validates the structuring element, and
only then calls `_get_perimeter_image`, whose head raises `RuntimeError` for
rank > 3.  For a rank-0 image none of those guards fire and the first slicing
statement `count[1:] += image[:-1]` raises numpy's `IndexError` (a 0-d array
cannot be sliced).  All of this happens before `out[:] = image[:]`.  The
following shape-level model captures exactly this dispatch behaviour; `γ` is
the abstract grid type and `computed` stands for the grid a successful call
writes. -/

/-- The error behaviour of `_get_perimeter_image` as a function of the rank. -/
def perimeter_rank_check (rank : ℕ) : Except MErr Unit :=
  if rank > 3 then .error .runtimeError      -- `if dim > 3: raise RuntimeError`
  else if rank = 0 then .error .indexError   -- `count[1:] += image[:-1]` on a 0-d array
  else .ok ()

/-- Shape-level model of a `binary_dilation` call: the even-axis check on a
supplied element, then the rank check, then (only on success) the buffer
update. -/
def dilation_dispatch {γ : Type} (rank : ℕ) (selemShape : Option (List ℕ))
    (computed : γ) (out : Option γ) : Except MErr Unit × Option γ :=
  let validated : Except MErr Unit :=
    match selemShape with
    | none => .ok ()
    | some sh => if sh.any (fun n => n % 2 = 0) then .error .valueError else .ok ()
  match validated with
  | .error e => (.error e, out)
  | .ok _ =>
      match perimeter_rank_check rank with
      | .error e => (.error e, out)
      | .ok _ => (.ok (), out.map fun _ => computed)

/-- Shape-level model of a `binary_erosion` call: it immediately calls
`binary_dilation(~image, selem, out)`, so its error behaviour is identical
(`computed` is the final complemented grid). -/
def erosion_dispatch {γ : Type} (rank : ℕ) (selemShape : Option (List ℕ))
    (computed : γ) (out : Option γ) : Except MErr Unit × Option γ :=
  dilation_dispatch rank selemShape computed out

/-- Shape-level model of a `binary_closing` call: the inner value-mode
dilation runs (and can raise) before the buffer-carrying erosion. -/
def closing_dispatch {γ : Type} (rank : ℕ) (selemShape : Option (List ℕ))
    (computed : γ) (out : Option γ) : Except MErr Unit × Option γ :=
  match dilation_dispatch rank selemShape computed none with
  | (.error e, _) => (.error e, out)
  | (.ok _, _) => erosion_dispatch rank selemShape computed out

/-- Shape-level model of a `binary_opening` call. -/
def opening_dispatch {γ : Type} (rank : ℕ) (selemShape : Option (List ℕ))
    (computed : γ) (out : Option γ) : Except MErr Unit × Option γ :=
  match erosion_dispatch rank selemShape computed none with
  | (.error e, _) => (.error e, out)
  | (.ok _, _) => dilation_dispatch rank selemShape computed out

/-! ## Footprint offsets and structuring-element shape conditions -/

/-- The centered footprint of a rank-1 element: offset `o` is in the
footprint when `|o| ≤ r` and the element is true at array index `o + r`. -/
def inF1 (S : Img1) (o : ℤ) : Prop :=
  -((S.len : ℤ) / 2) ≤ o ∧ o ≤ (S.len : ℤ) / 2 ∧ S.pix (o + (S.len : ℤ) / 2) = true

/-- The centered footprint of a rank-2 element. -/
def inF2 (S : Img2) (o : ℤ × ℤ) : Prop :=
  -((S.lx : ℤ) / 2) ≤ o.1 ∧ o.1 ≤ (S.lx : ℤ) / 2 ∧
  -((S.ly : ℤ) / 2) ≤ o.2 ∧ o.2 ≤ (S.ly : ℤ) / 2 ∧
  S.pix (o.1 + (S.lx : ℤ) / 2) (o.2 + (S.ly : ℤ) / 2) = true

/-- The centered footprint of a rank-3 element. -/
def inF3 (S : Img3) (o : ℤ × ℤ × ℤ) : Prop :=
  -((S.lx : ℤ) / 2) ≤ o.1 ∧ o.1 ≤ (S.lx : ℤ) / 2 ∧
  -((S.ly : ℤ) / 2) ≤ o.2.1 ∧ o.2.1 ≤ (S.ly : ℤ) / 2 ∧
  -((S.lz : ℤ) / 2) ≤ o.2.2 ∧ o.2.2 ≤ (S.lz : ℤ) / 2 ∧
  S.pix (o.1 + (S.lx : ℤ) / 2) (o.2.1 + (S.ly : ℤ) / 2) (o.2.2 + (S.lz : ℤ) / 2) = true

/-- One array-index step from `a` towards the center index `c`. -/
def toward (c a : ℕ) : ℕ := if a < c then a + 1 else a - 1

/-- Denotation of clipped dilation over an abstract coordinate group: the
image itself, unioned with every cell hit by the footprint placed at an
in-bounds foreground cell (`x = i + o` with `F o`, i.e. `i = x - o`).  The
per-rank dilation pixels are proved to coincide with this denotation. -/
def Dil {α : Type} [AddCommGroup α] (inB F X : α → Prop) (x : α) : Prop :=
  X x ∨ ∃ o, F o ∧ inB (x - o) ∧ X (x - o)

/-- Denotation of clipped erosion (the complement-dual of `Dil`): the cell is
foreground and so is every in-bounds cell `x - o` for a footprint offset `o`.
Out-of-bounds probes are vacuously satisfied, matching the edge-clipping of
the dilation this is dual to. -/
def Ero {α : Type} [AddCommGroup α] (inB F X : α → Prop) (x : α) : Prop :=
  X x ∧ ∀ o, F o → inB (x - o) → X (x - o)

/-- A rank-1 element is *star-shaped towards its center*: every true cell
other than the center can take one index step towards the center and stay on
a true cell (for rank 1 this is exactly "the footprint is an interval around
the center", which orthogonal connectivity through the center implies). -/
def star1 (S : Img1) : Prop :=
  ∀ a : ℕ, a < S.len → S.pix (a : ℤ) = true → a ≠ S.len / 2 →
    S.pix ((toward (S.len / 2) a : ℕ) : ℤ) = true

instance (S : Img1) : Decidable (star1 S) := by unfold star1; infer_instance

/-- A rank-2 element is star-shaped towards its center: every true cell other
than the center can step one index towards the center along *some* axis and
stay on a true cell. -/
def star2 (S : Img2) : Prop :=
  ∀ a : ℕ, a < S.lx → ∀ b : ℕ, b < S.ly → S.pix (a : ℤ) (b : ℤ) = true →
    ¬(a = S.lx / 2 ∧ b = S.ly / 2) →
    (a ≠ S.lx / 2 ∧ S.pix ((toward (S.lx / 2) a : ℕ) : ℤ) (b : ℤ) = true) ∨
    (b ≠ S.ly / 2 ∧ S.pix (a : ℤ) ((toward (S.ly / 2) b : ℕ) : ℤ) = true)

instance (S : Img2) : Decidable (star2 S) := by
  unfold star2
  exact @Nat.decidableBallLT _ _ (fun _ _ => @Nat.decidableBallLT _ _ (fun _ _ => inferInstance))

/-- A rank-3 element is star-shaped towards its center. -/
def star3 (S : Img3) : Prop :=
  ∀ a : ℕ, a < S.lx → ∀ b : ℕ, b < S.ly → ∀ c : ℕ, c < S.lz →
    S.pix (a : ℤ) (b : ℤ) (c : ℤ) = true →
    ¬(a = S.lx / 2 ∧ b = S.ly / 2 ∧ c = S.lz / 2) →
    (a ≠ S.lx / 2 ∧ S.pix ((toward (S.lx / 2) a : ℕ) : ℤ) (b : ℤ) (c : ℤ) = true) ∨
    (b ≠ S.ly / 2 ∧ S.pix (a : ℤ) ((toward (S.ly / 2) b : ℕ) : ℤ) (c : ℤ) = true) ∨
    (c ≠ S.lz / 2 ∧ S.pix (a : ℤ) (b : ℤ) ((toward (S.lz / 2) c : ℕ) : ℤ) = true)

instance (S : Img3) : Decidable (star3 S) := by
  unfold star3
  exact @Nat.decidableBallLT _ _ (fun _ _ => @Nat.decidableBallLT _ _
    (fun _ _ => @Nat.decidableBallLT _ _ (fun _ _ => inferInstance)))

/-- A rank-1 element is point-symmetric about its center:
`S[a] = S[len - 1 - a]`. -/
def symmetric1 (S : Img1) : Prop :=
  ∀ a : ℕ, a < S.len → S.pix (a : ℤ) = S.pix ((S.len - 1 - a : ℕ) : ℤ)

instance (S : Img1) : Decidable (symmetric1 S) := by unfold symmetric1; infer_instance

/-- A rank-2 element is point-symmetric about its center. -/
def symmetric2 (S : Img2) : Prop :=
  ∀ a : ℕ, a < S.lx → ∀ b : ℕ, b < S.ly →
    S.pix (a : ℤ) (b : ℤ) = S.pix ((S.lx - 1 - a : ℕ) : ℤ) ((S.ly - 1 - b : ℕ) : ℤ)

instance (S : Img2) : Decidable (symmetric2 S) := by
  unfold symmetric2
  exact @Nat.decidableBallLT _ _ (fun _ _ => @Nat.decidableBallLT _ _ (fun _ _ => inferInstance))

/-- A rank-3 element is point-symmetric about its center. -/
def symmetric3 (S : Img3) : Prop :=
  ∀ a : ℕ, a < S.lx → ∀ b : ℕ, b < S.ly → ∀ c : ℕ, c < S.lz →
    S.pix (a : ℤ) (b : ℤ) (c : ℤ) =
      S.pix ((S.lx - 1 - a : ℕ) : ℤ) ((S.ly - 1 - b : ℕ) : ℤ) ((S.lz - 1 - c : ℕ) : ℤ)

instance (S : Img3) : Decidable (symmetric3 S) := by
  unfold symmetric3
  exact @Nat.decidableBallLT _ _ (fun _ _ => @Nat.decidableBallLT _ _
    (fun _ _ => @Nat.decidableBallLT _ _ (fun _ _ => inferInstance)))

/-! ### Orthogonal connectivity (spec side)

Modelled from the spec: "only guaranteed correct when the structuring
element's footprint is orthogonally connected and contains its own center".
Connectivity is computed as a bounded fixed-point iteration of the
one-step-reachability expansion starting from the center cell, so that the
predicate is decidable on concrete elements. -/

/-- One expansion step of reachability inside the true footprint of a rank-2
element: keep every already-reached cell and add every true cell orthogonally
adjacent to a reached cell. -/
def connStep2 (S : Img2) (vis : List (ℤ × ℤ)) : List (ℤ × ℤ) :=
  (List.range S.lx).flatMap fun a =>
    (List.range S.ly).filterMap fun b =>
      let p : ℤ × ℤ := ((a : ℤ), (b : ℤ))
      if S.pix p.1 p.2 = true ∧ (p ∈ vis ∨ (p.1 - 1, p.2) ∈ vis ∨ (p.1 + 1, p.2) ∈ vis ∨
          (p.1, p.2 - 1) ∈ vis ∨ (p.1, p.2 + 1) ∈ vis)
        then some p else none

/-- Cells of the true footprint reachable from the center cell by orthogonal
steps inside the footprint (`lx * ly` expansion steps reach the fixed point). -/
def connReach2 (S : Img2) : List (ℤ × ℤ) :=
  (connStep2 S)^[S.lx * S.ly]
    (if S.pix ((S.lx / 2 : ℕ) : ℤ) ((S.ly / 2 : ℕ) : ℤ) = true
      then [(((S.lx / 2 : ℕ) : ℤ), ((S.ly / 2 : ℕ) : ℤ))] else [])

/-- The true footprint of a rank-2 element contains its own center and is
orthogonally connected (equivalently, with the center present: every true
cell is reachable from the center inside the footprint). -/
def connectedWithCenter2 (S : Img2) : Prop :=
  S.pix ((S.lx / 2 : ℕ) : ℤ) ((S.ly / 2 : ℕ) : ℤ) = true ∧
  ∀ a : ℕ, a < S.lx → ∀ b : ℕ, b < S.ly → S.pix (a : ℤ) (b : ℤ) = true →
    (((a : ℤ), (b : ℤ)) : ℤ × ℤ) ∈ connReach2 S

instance (S : Img2) : Decidable (connectedWithCenter2 S) := by
  unfold connectedWithCenter2
  exact @instDecidableAnd _ _ _
    (@Nat.decidableBallLT _ _ (fun _ _ => @Nat.decidableBallLT _ _ (fun _ _ => inferInstance)))

/-! ## Concrete grids used in the concrete theorems -/

/-- A rank-1 grid from a list of booleans. -/
def mkImg1 (L : List Bool) : Img1 :=
  { len := L.length
    pix := fun x => if 0 ≤ x ∧ x < (L.length : ℤ) then L.getD x.toNat false else false }

/-- A rank-2 grid from a list of rows. -/
def mkImg2 (L : List (List Bool)) : Img2 :=
  { lx := L.length, ly := (L.getD 0 []).length
    pix := fun x y => if 0 ≤ x ∧ 0 ≤ y then (L.getD x.toNat []).getD y.toNat false
      else false }

/-- A 3×6 rank-2 image whose foreground is the full left 3×4 block.  Its
interior cells under the 1-step rule include the whole left 3×3 block, and
its perimeter is exactly column 3. -/
def cImg : Img2 := mkImg2 [
  [true, true, true, true, false, false],
  [true, true, true, true, false, false],
  [true, true, true, true, false, false]]

/-- A 5×5 C-shaped structuring element: footprint offsets
`{(0,0),(1,0),(2,0),(2,1),(2,2),(1,2),(0,2)}` around the center `(2,2)` —
orthogonally connected and containing its center, but offset `(0,2)` cannot
step towards the center inside the footprint. -/
def cSelem : Img2 := mkImg2 [
  [false, false, false, false, false],
  [false, false, false, false, false],
  [false, false, true, false, true],
  [false, false, true, false, true],
  [false, false, true, true, true]]

/-- The all-true 3×3×3 cube. -/
def cube3 : Img3 := { lx := 3, ly := 3, lz := 3, pix := fun _ _ _ => true }

/-! # Lemmas -/

/-! ## `_generate_array_indices` -/

/-- Characterization of the four returned indices. -/
theorem generate_array_indices_eq (c r s l : ℤ) :
    generate_array_indices c r s l =
      ((max 0 (c - r), c + r + 1),
       (if c - r < 0 then -(c - r) else 0,
        if c + r + 1 > l then s - (c + r + 1 - l) else s)) := rfl

/-- For an in-range call the result range start is in `[0, l]`, the element
range is within `[0, s]`, nonempty, the two ranges are aligned
(`result_begin - selem_begin = c - r`), and after clipping the result end at
`l` (as Python slicing does) the two ranges have equal length. -/
theorem generate_array_indices_spec (c r s l : ℤ)
    (hc0 : 0 ≤ c) (hcl : c < l) (hs : s = 2 * r + 1) (hr : 0 ≤ r) :
    let p := generate_array_indices c r s l
    0 ≤ p.1.1 ∧ p.1.1 ≤ l ∧ p.1.1 ≤ min p.1.2 l ∧
    0 ≤ p.2.1 ∧ p.2.1 ≤ p.2.2 ∧ p.2.2 ≤ s ∧
    p.1.1 - p.2.1 = c - r ∧
    min p.1.2 l - p.1.1 = p.2.2 - p.2.1 := by
  simp only [generate_array_indices]
  split_ifs <;> omega

/-! ## The fold of slice-OR updates is a pointwise disjunction -/

theorem foldl_slice_or1 (selem : Img1) (l : ℤ) (L : List ℤ) (init : ℤ → Bool) (x : ℤ) :
    (L.foldl (slice_or1 selem l) init) x =
      (init x || L.any fun i => sliceCover1 selem l i x) := by
  induction L generalizing init with
  | nil => simp
  | cons hd tl ih =>
      simp only [List.foldl_cons, List.any_cons, ih, slice_or1, Bool.or_assoc]

theorem foldl_slice_or2 (selem : Img2) (lx ly : ℤ) (L : List (ℤ × ℤ))
    (init : ℤ → ℤ → Bool) (x y : ℤ) :
    (L.foldl (slice_or2 selem lx ly) init) x y =
      (init x y || L.any fun i => sliceCover2 selem lx ly i x y) := by
  induction L generalizing init with
  | nil => simp
  | cons hd tl ih =>
      simp only [List.foldl_cons, List.any_cons, ih, slice_or2, Bool.or_assoc]

theorem foldl_slice_or3 (selem : Img3) (lx ly lz : ℤ) (L : List (ℤ × ℤ × ℤ))
    (init : ℤ → ℤ → ℤ → Bool) (x y z : ℤ) :
    (L.foldl (slice_or3 selem lx ly lz) init) x y z =
      (init x y z || L.any fun i => sliceCover3 selem lx ly lz i x y z) := by
  induction L generalizing init with
  | nil => simp
  | cons hd tl ih =>
      simp only [List.foldl_cons, List.any_cons, ih, slice_or3, Bool.or_assoc]

/-! ## Coordinate-list membership -/

theorem mem_all_coords1 (l : ℕ) (i : ℤ) : i ∈ all_coords1 l ↔ inB1 l i := by
  unfold inB1
  simp only [all_coords1, List.mem_map, List.mem_range]
  constructor
  · rintro ⟨n, hn, rfl⟩
    omega
  · rintro ⟨h0, hl⟩
    exact ⟨i.toNat, by omega, by omega⟩

theorem mem_perim_coords1 (img : Img1) (i : ℤ) :
    i ∈ perim_coords1 img ↔ inB1 img.len i ∧ perimeter1 img i = true := by
  simp [perim_coords1, List.mem_filter, mem_all_coords1]

theorem mem_fg_coords1 (img : Img1) (i : ℤ) :
    i ∈ fg_coords1 img ↔ inB1 img.len i ∧ img.pix i = true := by
  simp [fg_coords1, List.mem_filter, mem_all_coords1]

theorem mem_all_coords2 (lx ly : ℕ) (p : ℤ × ℤ) :
    p ∈ all_coords2 lx ly ↔ inB2 lx ly p.1 p.2 := by
  unfold inB2
  simp only [all_coords2, List.mem_flatMap, List.mem_map, List.mem_range]
  constructor
  · rintro ⟨a, ha, b, hb, rfl⟩
    simp only
    omega
  · rintro ⟨h0, hx, h1, hy⟩
    exact ⟨p.1.toNat, by omega, p.2.toNat, by omega, by
      simp only [Prod.ext_iff]; constructor <;> simp <;> omega⟩

theorem mem_perim_coords2 (img : Img2) (p : ℤ × ℤ) :
    p ∈ perim_coords2 img ↔ inB2 img.lx img.ly p.1 p.2 ∧ perimeter2 img p.1 p.2 = true := by
  simp [perim_coords2, List.mem_filter, mem_all_coords2]

theorem mem_fg_coords2 (img : Img2) (p : ℤ × ℤ) :
    p ∈ fg_coords2 img ↔ inB2 img.lx img.ly p.1 p.2 ∧ img.pix p.1 p.2 = true := by
  simp [fg_coords2, List.mem_filter, mem_all_coords2]

theorem mem_all_coords3 (lx ly lz : ℕ) (p : ℤ × ℤ × ℤ) :
    p ∈ all_coords3 lx ly lz ↔ inB3 lx ly lz p.1 p.2.1 p.2.2 := by
  unfold inB3
  simp only [all_coords3, List.mem_flatMap, List.mem_map, List.mem_range]
  constructor
  · rintro ⟨a, ha, b, hb, c, hc, rfl⟩
    simp only
    omega
  · rintro ⟨h0, hx, h1, hy, h2, hz⟩
    exact ⟨p.1.toNat, by omega, p.2.1.toNat, by omega, p.2.2.toNat, by omega, by
      simp only [Prod.ext_iff]
      refine ⟨by simp; omega, by simp; omega, by simp; omega⟩⟩

theorem mem_perim_coords3 (img : Img3) (p : ℤ × ℤ × ℤ) :
    p ∈ perim_coords3 img ↔
      inB3 img.lx img.ly img.lz p.1 p.2.1 p.2.2 ∧ perimeter3 img p.1 p.2.1 p.2.2 = true := by
  simp [perim_coords3, List.mem_filter, mem_all_coords3]

theorem mem_fg_coords3 (img : Img3) (p : ℤ × ℤ × ℤ) :
    p ∈ fg_coords3 img ↔
      inB3 img.lx img.ly img.lz p.1 p.2.1 p.2.2 ∧ img.pix p.1 p.2.1 p.2.2 = true := by
  simp [fg_coords3, List.mem_filter, mem_all_coords3]

/-! ## Slice coverage versus the centered footprint -/

theorem sliceCover1_iff (S : Img1) (l i x : ℤ) :
    sliceCover1 S l i x = true ↔ 0 ≤ x ∧ x < l ∧ inF1 S (x - i) := by
  have hidx : (if i - (S.len : ℤ) / 2 < 0 then -(i - (S.len : ℤ) / 2) else 0) +
      (x - max 0 (i - (S.len : ℤ) / 2)) = x - i + (S.len : ℤ) / 2 := by
    split_ifs <;> omega
  simp only [sliceCover1, generate_array_indices, inF1, Bool.and_eq_true,
    decide_eq_true_eq, hidx]
  constructor
  · rintro ⟨⟨h1, h2⟩, h3⟩
    exact ⟨by omega, by omega, by omega, by omega, h3⟩
  · rintro ⟨h0, hl, ha, hb, hp⟩
    exact ⟨⟨by omega, by omega⟩, hp⟩

theorem footprint_hits1_iff (S : Img1) (l i x : ℤ) :
    footprint_hits1 S l i x = true ↔ 0 ≤ x ∧ x < l ∧ inF1 S (x - i) := by
  simp only [footprint_hits1, inF1, Bool.and_eq_true, decide_eq_true_eq]
  constructor
  · rintro ⟨⟨⟨⟨h0, hl⟩, ha⟩, hb⟩, hp⟩
    exact ⟨h0, hl, by omega, by omega, hp⟩
  · rintro ⟨h0, hl, ha, hb, hp⟩
    exact ⟨⟨⟨⟨h0, hl⟩, by omega⟩, by omega⟩, hp⟩

theorem sliceCover2_iff (S : Img2) (lx ly : ℤ) (i : ℤ × ℤ) (x y : ℤ) :
    sliceCover2 S lx ly i x y = true ↔
      0 ≤ x ∧ x < lx ∧ 0 ≤ y ∧ y < ly ∧ inF2 S (x - i.1, y - i.2) := by
  have hix : (if i.1 - (S.lx : ℤ) / 2 < 0 then -(i.1 - (S.lx : ℤ) / 2) else 0) +
      (x - max 0 (i.1 - (S.lx : ℤ) / 2)) = x - i.1 + (S.lx : ℤ) / 2 := by
    split_ifs <;> omega
  have hiy : (if i.2 - (S.ly : ℤ) / 2 < 0 then -(i.2 - (S.ly : ℤ) / 2) else 0) +
      (y - max 0 (i.2 - (S.ly : ℤ) / 2)) = y - i.2 + (S.ly : ℤ) / 2 := by
    split_ifs <;> omega
  simp only [sliceCover2, generate_array_indices, inF2, Bool.and_eq_true,
    decide_eq_true_eq, hix, hiy]
  constructor
  · rintro ⟨⟨⟨⟨hx1, hx2⟩, hy1⟩, hy2⟩, hp⟩
    exact ⟨by omega, by omega, by omega, by omega, by omega, by omega, by omega, by omega, hp⟩
  · rintro ⟨hx0, hxl, hy0, hyl, ha, hb, hc, hd, hp⟩
    exact ⟨⟨⟨⟨by omega, by omega⟩, by omega⟩, by omega⟩, hp⟩

theorem footprint_hits2_iff (S : Img2) (lx ly : ℤ) (i : ℤ × ℤ) (x y : ℤ) :
    footprint_hits2 S lx ly i x y = true ↔
      0 ≤ x ∧ x < lx ∧ 0 ≤ y ∧ y < ly ∧ inF2 S (x - i.1, y - i.2) := by
  simp only [footprint_hits2, inF2, Bool.and_eq_true, decide_eq_true_eq]
  constructor
  · rintro ⟨⟨⟨⟨⟨⟨⟨⟨hx0, hxl⟩, hy0⟩, hyl⟩, ha⟩, hb⟩, hc⟩, hd⟩, hp⟩
    exact ⟨by omega, by omega, by omega, by omega, by omega, by omega, by omega, by omega, hp⟩
  · rintro ⟨hx0, hxl, hy0, hyl, ha, hb, hc, hd, hp⟩
    exact ⟨⟨⟨⟨⟨⟨⟨⟨by omega, by omega⟩, by omega⟩, by omega⟩, by omega⟩, by omega⟩,
      by omega⟩, by omega⟩, hp⟩

theorem sliceCover3_iff (S : Img3) (lx ly lz : ℤ) (i : ℤ × ℤ × ℤ) (x y z : ℤ) :
    sliceCover3 S lx ly lz i x y z = true ↔
      0 ≤ x ∧ x < lx ∧ 0 ≤ y ∧ y < ly ∧ 0 ≤ z ∧ z < lz ∧
        inF3 S (x - i.1, y - i.2.1, z - i.2.2) := by
  have hix : (if i.1 - (S.lx : ℤ) / 2 < 0 then -(i.1 - (S.lx : ℤ) / 2) else 0) +
      (x - max 0 (i.1 - (S.lx : ℤ) / 2)) = x - i.1 + (S.lx : ℤ) / 2 := by
    split_ifs <;> omega
  have hiy : (if i.2.1 - (S.ly : ℤ) / 2 < 0 then -(i.2.1 - (S.ly : ℤ) / 2) else 0) +
      (y - max 0 (i.2.1 - (S.ly : ℤ) / 2)) = y - i.2.1 + (S.ly : ℤ) / 2 := by
    split_ifs <;> omega
  have hiz : (if i.2.2 - (S.lz : ℤ) / 2 < 0 then -(i.2.2 - (S.lz : ℤ) / 2) else 0) +
      (z - max 0 (i.2.2 - (S.lz : ℤ) / 2)) = z - i.2.2 + (S.lz : ℤ) / 2 := by
    split_ifs <;> omega
  simp only [sliceCover3, generate_array_indices, inF3, Bool.and_eq_true,
    decide_eq_true_eq, hix, hiy, hiz]
  constructor
  · rintro ⟨⟨⟨⟨⟨⟨hx1, hx2⟩, hy1⟩, hy2⟩, hz1⟩, hz2⟩, hp⟩
    refine ⟨by omega, by omega, by omega, by omega, by omega, by omega,
      by omega, by omega, by omega, by omega, by omega, by omega, hp⟩
  · rintro ⟨hx0, hxl, hy0, hyl, hz0, hzl, ha, hb, hc, hd, he, hf, hp⟩
    exact ⟨⟨⟨⟨⟨⟨by omega, by omega⟩, by omega⟩, by omega⟩, by omega⟩, by omega⟩, hp⟩

theorem footprint_hits3_iff (S : Img3) (lx ly lz : ℤ) (i : ℤ × ℤ × ℤ) (x y z : ℤ) :
    footprint_hits3 S lx ly lz i x y z = true ↔
      0 ≤ x ∧ x < lx ∧ 0 ≤ y ∧ y < ly ∧ 0 ≤ z ∧ z < lz ∧
        inF3 S (x - i.1, y - i.2.1, z - i.2.2) := by
  simp only [footprint_hits3, inF3, Bool.and_eq_true, decide_eq_true_eq]
  constructor
  · rintro ⟨⟨⟨⟨⟨⟨⟨⟨⟨⟨⟨⟨hx0, hxl⟩, hy0⟩, hyl⟩, hz0⟩, hzl⟩, ha⟩, hb⟩, hc⟩, hd⟩, he⟩, hf⟩, hp⟩
    exact ⟨by omega, by omega, by omega, by omega, by omega, by omega,
      by omega, by omega, by omega, by omega, by omega, by omega, hp⟩
  · rintro ⟨hx0, hxl, hy0, hyl, hz0, hzl, ha, hb, hc, hd, he, hf, hp⟩
    exact ⟨⟨⟨⟨⟨⟨⟨⟨⟨⟨⟨⟨by omega, by omega⟩, by omega⟩, by omega⟩, by omega⟩, by omega⟩,
      by omega⟩, by omega⟩, by omega⟩, by omega⟩, by omega⟩, by omega⟩, hp⟩

/-! ## Generic perimeter-cover induction

If the footprint can always take one step towards the center that shrinks a
norm `μ`, then every cell reachable from an in-bounds foreground cell is
either foreground itself or reachable from a *perimeter* cell (`P`), because
walking the footprint step by step from the source cell stays on foreground
cells until a perimeter cell is met. -/

theorem perim_cover {α : Type} [AddCommGroup α]
    (inB F X P : α → Prop) (μ : α → ℕ) (Adj : α → α → Prop)
    (hInterior : ∀ i, inB i → X i → ¬P i → ∀ j, Adj i j → inB j → X j)
    (hStep : ∀ o, F o → μ o ≠ 0 → ∀ i, inB i → inB (i + o) →
      ∃ q, F q ∧ μ q < μ o ∧ Adj i (i + o - q) ∧ inB (i + o - q))
    (hZero : ∀ o, μ o = 0 → o = 0) :
    ∀ (n : ℕ) (o i : α), μ o = n → F o → inB i → X i → inB (i + o) →
      X (i + o) ∨ ∃ p, inB p ∧ P p ∧ F (i + o - p) := by
  intro n
  induction n using Nat.strong_induction_on with
  | _ n ih =>
    intro o i hμ hF hBi hXi hBio
    by_cases hP : P i
    · refine Or.inr ⟨i, hBi, hP, ?_⟩
      have h : i + o - i = o := by abel
      rw [h]
      exact hF
    · by_cases h0 : μ o = 0
      · left
        have h : o = 0 := hZero o h0
        rw [h, add_zero]
        exact hXi
      · obtain ⟨q, hFq, hμq, hAdj, hBq⟩ := hStep o hF h0 i hBi hBio
        have hXq : X (i + o - q) := hInterior i hBi hXi hP _ hAdj hBq
        have hrw : (i + o - q) + q = i + o := by abel
        have hres := ih (μ q) (by omega) q (i + o - q) rfl hFq hBq hXq
          (by rw [hrw]; exact hBio)
        rw [hrw] at hres
        exact hres

/-! ## Abstract algebra of the clipped dilation/erosion pair

All statements are relative to the in-bounds region, since the grids only
carry meaning there.  Point symmetry of the footprint (`F o → F (-o)`) is
what makes the pair an adjunction. -/

section MorphAlgebra

variable {α : Type} [AddCommGroup α] {inB F X Y : α → Prop}

theorem Dil_mono (h : ∀ y, inB y → X y → Y y) (x : α) (hx : inB x) :
    Dil inB F X x → Dil inB F Y x := by
  rintro (hX | ⟨o, hF, hB, hX⟩)
  · exact Or.inl (h x hx hX)
  · exact Or.inr ⟨o, hF, hB, h _ hB hX⟩

theorem Ero_mono (h : ∀ y, inB y → X y → Y y) (x : α) (hx : inB x) :
    Ero inB F X x → Ero inB F Y x := by
  rintro ⟨h1, h2⟩
  exact ⟨h x hx h1, fun o hF hB => h _ hB (h2 o hF hB)⟩

theorem Dil_congr (h : ∀ y, inB y → (X y ↔ Y y)) (x : α) (hx : inB x) :
    Dil inB F X x ↔ Dil inB F Y x :=
  ⟨Dil_mono (fun y hy => (h y hy).mp) x hx, Dil_mono (fun y hy => (h y hy).mpr) x hx⟩

theorem Ero_congr (h : ∀ y, inB y → (X y ↔ Y y)) (x : α) (hx : inB x) :
    Ero inB F X x ↔ Ero inB F Y x :=
  ⟨Ero_mono (fun y hy => (h y hy).mp) x hx, Ero_mono (fun y hy => (h y hy).mpr) x hx⟩

theorem opening_sub_self (hSymm : ∀ o, F o → F (-o)) (x : α) (hx : inB x) :
    Dil inB F (Ero inB F X) x → X x := by
  rintro (hE | ⟨o, hF, hB, hE⟩)
  · exact hE.1
  · have hxx : x - o - (-o) = x := by abel
    have := hE.2 (-o) (hSymm o hF) (by rw [hxx]; exact hx)
    rw [hxx] at this
    exact this

theorem closing_sup_self (hSymm : ∀ o, F o → F (-o)) (x : α) (hx : inB x) :
    X x → Ero inB F (Dil inB F X) x := by
  intro hX
  refine ⟨Or.inl hX, fun o hF hB => ?_⟩
  have hxx : x - o - (-o) = x := by abel
  exact Or.inr ⟨-o, hSymm o hF, by rw [hxx]; exact hx, by rw [hxx]; exact hX⟩

theorem Ero_Dil_Ero (hSymm : ∀ o, F o → F (-o)) (x : α) (hx : inB x) :
    Ero inB F (Dil inB F (Ero inB F X)) x ↔ Ero inB F X x :=
  ⟨Ero_mono (fun y hy => opening_sub_self hSymm y hy) x hx,
   fun h => closing_sup_self hSymm x hx h⟩

theorem Dil_Ero_Dil (hSymm : ∀ o, F o → F (-o)) (x : α) (hx : inB x) :
    Dil inB F (Ero inB F (Dil inB F X)) x ↔ Dil inB F X x :=
  ⟨opening_sub_self hSymm x hx,
   Dil_mono (fun y hy => closing_sup_self hSymm y hy) x hx⟩

theorem open_idem_abstract (hSymm : ∀ o, F o → F (-o)) (x : α) (hx : inB x) :
    Dil inB F (Ero inB F (Dil inB F (Ero inB F X))) x ↔ Dil inB F (Ero inB F X) x :=
  Dil_congr (fun y hy => Ero_Dil_Ero hSymm y hy) x hx

theorem close_idem_abstract (hSymm : ∀ o, F o → F (-o)) (x : α) (hx : inB x) :
    Ero inB F (Dil inB F (Ero inB F (Dil inB F X))) x ↔ Ero inB F (Dil inB F X) x :=
  Ero_congr (fun y hy => Dil_Ero_Dil hSymm y hy) x hx

end MorphAlgebra

/-! ## Boolean helper -/

theorem bool_eq_of_iff {a b : Bool} (h : a = true ↔ b = true) : a = b := by
  cases a <;> cases b <;> simp_all

/-! ## Rank 1: perimeter soundness and the star step -/

theorem perimeter1_pix {img : Img1} {i : ℤ} (h : perimeter1 img i = true) :
    img.pix i = true :=
  ((Bool.and_eq_true _ _).mp h).1

theorem inner1_of_not_perim {img : Img1} {i : ℤ} (hpix : img.pix i = true)
    (hnp : ¬ perimeter1 img i = true) : inner1 img i = true := by
  cases hin : inner1 img i
  · exfalso
    apply hnp
    unfold perimeter1
    rw [hpix, hin]
    rfl
  · rfl

/-- Soundness of the rank-1 `inner` mask: an inner foreground cell has all
its in-bounds axis neighbors foreground.  (The `image == 2` disjunct of the
source is elementwise false and contributes nothing.) -/
theorem inner1_sound (img : Img1) (i : ℤ)
    (hB : inB1 img.len i) (hpix : img.pix i = true) (hin : inner1 img i = true)
    (j : ℤ) (hAdj : (j - i).natAbs = 1) (hBj : inB1 img.len j) :
    img.pix j = true := by
  unfold inB1 at hB hBj
  unfold inner1 at hin
  rw [Bool.or_eq_true, Bool.or_eq_true] at hin
  rcases hin with (h2 | h0) | hL
  · rw [decide_eq_true_eq, hpix] at h2
    simp at h2
  · rw [Bool.and_eq_true, decide_eq_true_eq, decide_eq_true_eq] at h0
    obtain ⟨hi0, hc⟩ := h0
    subst hi0
    have hj : j = 1 := by omega
    subst hj
    by_cases hp : img.pix 1 = true
    · exact hp
    · exfalso
      unfold count1 at hc
      rw [if_neg (by rintro ⟨h, _⟩; omega), if_neg (by
        rintro ⟨_, hq⟩
        rw [show (0 : ℤ) + 1 = 1 by norm_num] at hq
        exact hp hq)] at hc
      omega
  · rw [Bool.and_eq_true, decide_eq_true_eq, decide_eq_true_eq] at hL
    obtain ⟨hiL, hc⟩ := hL
    subst hiL
    have hj : j = (img.len : ℤ) - 1 - 1 := by omega
    subst hj
    by_cases hp : img.pix ((img.len : ℤ) - 1 - 1) = true
    · exact hp
    · exfalso
      unfold count1 at hc
      rw [if_neg (by
        rintro ⟨_, hq⟩
        rw [show (img.len : ℤ) - 1 - 1 = (img.len : ℤ) - 1 - 1 from rfl] at hq
        exact hp hq), if_neg (by rintro ⟨h, _⟩; omega)] at hc
      omega

/-- The star condition supplies, for every nonzero footprint offset, a
shorter footprint offset one axis step closer, whose associated source cell
stays in bounds. -/
theorem star1_step (S : Img1) (hodd : S.len % 2 = 1) (hstar : star1 S) (l : ℕ) :
    ∀ o : ℤ, inF1 S o → o.natAbs ≠ 0 → ∀ i : ℤ, inB1 l i → inB1 l (i + o) →
      ∃ q, inF1 S q ∧ q.natAbs < o.natAbs ∧ ((i + o - q) - i).natAbs = 1 ∧
        inB1 l (i + o - q) := by
  intro o hF hne i hBi hBio
  obtain ⟨hlo, hhi, hpix⟩ := hF
  unfold inB1 at hBi hBio ⊢
  have hr2 : (S.len : ℤ) = 2 * ((S.len : ℤ) / 2) + 1 := by omega
  have hidx0 : 0 ≤ o + (S.len : ℤ) / 2 := by omega
  have ha : (((o + (S.len : ℤ) / 2).toNat : ℕ) : ℤ) = o + (S.len : ℤ) / 2 := by omega
  have haS : (o + (S.len : ℤ) / 2).toNat < S.len := by omega
  have hapix : S.pix (((o + (S.len : ℤ) / 2).toNat : ℕ) : ℤ) = true := by
    rw [ha]; exact hpix
  have hcast : ((S.len / 2 : ℕ) : ℤ) = (S.len : ℤ) / 2 := by omega
  have hanc : (o + (S.len : ℤ) / 2).toNat ≠ S.len / 2 := by omega
  have hstep := hstar _ haS hapix hanc
  unfold toward at hstep
  by_cases hneg : (o + (S.len : ℤ) / 2).toNat < S.len / 2
  · -- o < 0: step to offset o + 1, source cell i - 1
    rw [if_pos hneg] at hstep
    have ho : o < 0 := by omega
    refine ⟨o + 1, ⟨by omega, by omega, ?_⟩, by omega, by omega, by omega, by omega⟩
    have e : (((o + (S.len : ℤ) / 2).toNat + 1 : ℕ) : ℤ) = o + 1 + (S.len : ℤ) / 2 := by
      omega
    rw [e] at hstep
    exact hstep
  · -- o > 0: step to offset o - 1, source cell i + 1
    rw [if_neg hneg] at hstep
    have ho : 0 < o := by omega
    refine ⟨o - 1, ⟨by omega, by omega, ?_⟩, by omega, by omega, by omega, by omega⟩
    have e : (((o + (S.len : ℤ) / 2).toNat - 1 : ℕ) : ℤ) = o - 1 + (S.len : ℤ) / 2 := by
      omega
    rw [e] at hstep
    exact hstep

/-! ## Rank 1: pixel characterizations -/

theorem binary_dilation1_pix (img S : Img1) (x : ℤ) :
    (binary_dilation1 img S).pix x = true ↔
      img.pix x = true ∨ ∃ i, (inB1 img.len i ∧ perimeter1 img i = true) ∧
        (0 ≤ x ∧ x < (img.len : ℤ) ∧ inF1 S (x - i)) := by
  have h : (binary_dilation1 img S).pix x =
      ((perim_coords1 img).foldl (slice_or1 S (img.len : ℤ)) img.pix) x := rfl
  rw [h, foldl_slice_or1, Bool.or_eq_true, List.any_eq_true]
  constructor
  · rintro (h | ⟨i, hmem, hcov⟩)
    · exact Or.inl h
    · rw [mem_perim_coords1] at hmem
      rw [sliceCover1_iff] at hcov
      exact Or.inr ⟨i, hmem, hcov⟩
  · rintro (h | ⟨i, hmem, hcov⟩)
    · exact Or.inl h
    · refine Or.inr ⟨i, ?_, ?_⟩
      · rw [mem_perim_coords1]; exact hmem
      · rw [sliceCover1_iff]; exact hcov

theorem reference_dilation1_pix (img S : Img1) (x : ℤ) :
    (reference_dilation1 img S).pix x = true ↔
      img.pix x = true ∨ ∃ i, (inB1 img.len i ∧ img.pix i = true) ∧
        (0 ≤ x ∧ x < (img.len : ℤ) ∧ inF1 S (x - i)) := by
  have h : (reference_dilation1 img S).pix x =
      (img.pix x || (fg_coords1 img).any fun i =>
        footprint_hits1 S (img.len : ℤ) i x) := rfl
  rw [h, Bool.or_eq_true, List.any_eq_true]
  constructor
  · rintro (h | ⟨i, hmem, hcov⟩)
    · exact Or.inl h
    · rw [mem_fg_coords1] at hmem
      rw [footprint_hits1_iff] at hcov
      exact Or.inr ⟨i, hmem, hcov⟩
  · rintro (h | ⟨i, hmem, hcov⟩)
    · exact Or.inl h
    · refine Or.inr ⟨i, ?_, ?_⟩
      · rw [mem_fg_coords1]; exact hmem
      · rw [footprint_hits1_iff]; exact hcov

theorem reference1_as_Dil (img S : Img1) (x : ℤ) (hx : inB1 img.len x) :
    (reference_dilation1 img S).pix x = true ↔
      Dil (inB1 img.len) (inF1 S) (fun y => img.pix y = true) x := by
  rw [reference_dilation1_pix]
  unfold Dil
  constructor
  · rintro (h | ⟨i, ⟨hBi, hXi⟩, _, _, hF⟩)
    · exact Or.inl h
    · right
      have e : x - (x - i) = i := by abel
      exact ⟨x - i, hF, by rw [e]; exact hBi, by rw [e]; exact hXi⟩
  · rintro (h | ⟨o, hF, hB, hX⟩)
    · exact Or.inl h
    · right
      have e : x - (x - o) = o := by abel
      exact ⟨x - o, ⟨hB, hX⟩, hx.1, hx.2, by rw [e]; exact hF⟩

/-- The perimeter-restricted dilation has exactly the spreading denotation
`Dil` when the structuring element is star-shaped towards its center. -/
theorem dilation1_as_Dil (img S : Img1) (hodd : S.len % 2 = 1) (hstar : star1 S)
    (x : ℤ) (hx : inB1 img.len x) :
    (binary_dilation1 img S).pix x = true ↔
      Dil (inB1 img.len) (inF1 S) (fun y => img.pix y = true) x := by
  rw [binary_dilation1_pix]
  unfold Dil
  constructor
  · rintro (h | ⟨i, ⟨hBi, hper⟩, _, _, hF⟩)
    · exact Or.inl h
    · right
      have e : x - (x - i) = i := by abel
      exact ⟨x - i, hF, by rw [e]; exact hBi, by rw [e]; exact perimeter1_pix hper⟩
  · rintro (h | ⟨o, hF, hB, hX⟩)
    · exact Or.inl h
    · have hio : (x - o) + o = x := by abel
      have hres := perim_cover (inB1 img.len) (inF1 S)
        (fun y => img.pix y = true) (fun y => perimeter1 img y = true)
        Int.natAbs (fun i j => (j - i).natAbs = 1)
        (fun i hBi hXi hPi j hAdj hBj =>
          inner1_sound img i hBi hXi (inner1_of_not_perim hXi hPi) j hAdj hBj)
        (star1_step S hodd hstar img.len)
        (fun o ho => by omega)
        o.natAbs o (x - o) rfl hF hB hX (by rw [hio]; exact hx)
      rw [hio] at hres
      rcases hres with hX2 | ⟨p, hBp, hPp, hFp⟩
      · exact Or.inl hX2
      · exact Or.inr ⟨p, ⟨hBp, hPp⟩, hx.1, hx.2, hFp⟩

/-- Point symmetry of the element gives symmetry of the centered footprint. -/
theorem symmetric1_neg (S : Img1) (hodd : S.len % 2 = 1) (hsym : symmetric1 S) :
    ∀ o : ℤ, inF1 S o → inF1 S (-o) := by
  rintro o ⟨h1, h2, hp⟩
  have hr2 : (S.len : ℤ) = 2 * ((S.len : ℤ) / 2) + 1 := by omega
  refine ⟨by omega, by omega, ?_⟩
  have e1 : (((o + (S.len : ℤ) / 2).toNat : ℕ) : ℤ) = o + (S.len : ℤ) / 2 := by omega
  have e2 : ((S.len - 1 - (o + (S.len : ℤ) / 2).toNat : ℕ) : ℤ) =
      -o + (S.len : ℤ) / 2 := by omega
  have h := hsym (o + (S.len : ℤ) / 2).toNat (by omega)
  rw [e1, e2] at h
  rw [← h]
  exact hp

/-- Dilation only adds foreground (the output is seeded with the image). -/
theorem dilation1_sup (img S : Img1) (x : ℤ) (h : img.pix x = true) :
    (binary_dilation1 img S).pix x = true := by
  have e : (binary_dilation1 img S).pix x =
      ((perim_coords1 img).foldl (slice_or1 S (img.len : ℤ)) img.pix) x := rfl
  rw [e, foldl_slice_or1, h, Bool.true_or]

/-- Erosion only removes foreground. -/
theorem erosion1_sub (img S : Img1) (x : ℤ) (h : (binary_erosion1 img S).pix x = true) :
    img.pix x = true := by
  have e : (binary_erosion1 img S).pix x =
      !(binary_dilation1 (compl1 img) S).pix x := rfl
  rw [e, Bool.not_eq_true'] at h
  by_cases hp : img.pix x = true
  · exact hp
  · exfalso
    have hc : (compl1 img).pix x = true := by
      have : (compl1 img).pix x = !img.pix x := rfl
      rw [this, Bool.not_eq_true']
      exact Bool.not_eq_true _ ▸ (Bool.eq_false_iff.mpr hp)
    rw [dilation1_sup (compl1 img) S x hc] at h
    cases h

theorem erosion1_as_Ero (img S : Img1) (hodd : S.len % 2 = 1) (hstar : star1 S)
    (x : ℤ) (hx : inB1 img.len x) :
    (binary_erosion1 img S).pix x = true ↔
      Ero (inB1 img.len) (inF1 S) (fun y => img.pix y = true) x := by
  have e : (binary_erosion1 img S).pix x =
      !(binary_dilation1 (compl1 img) S).pix x := rfl
  rw [e, Bool.not_eq_true', ← Bool.not_eq_true]
  rw [dilation1_as_Dil (compl1 img) S hodd hstar x hx]
  unfold Dil Ero
  have ec : ∀ y : ℤ, ((compl1 img).pix y = true) ↔ ¬(img.pix y = true) := by
    intro y
    have : (compl1 img).pix y = !img.pix y := rfl
    rw [this, Bool.not_eq_true', Bool.eq_false_iff]
  constructor
  · intro h
    push_neg at h
    obtain ⟨h1, h2⟩ := h
    refine ⟨by_contra fun hc => h1 ((ec x).mpr hc), fun o hF hB => ?_⟩
    by_contra hc
    exact h2 o hF hB ((ec (x - o)).mpr hc)
  · rintro ⟨h1, h2⟩ h
    rcases h with hX | ⟨o, hF, hB, hX⟩
    · exact (ec x).mp hX h1
    · exact (ec (x - o)).mp hX (h2 o hF hB)

theorem opening1_as (img S : Img1) (hodd : S.len % 2 = 1) (hstar : star1 S)
    (x : ℤ) (hx : inB1 img.len x) :
    (binary_opening1 img S).pix x = true ↔
      Dil (inB1 img.len) (inF1 S)
        (Ero (inB1 img.len) (inF1 S) (fun y => img.pix y = true)) x := by
  have e : binary_opening1 img S = binary_dilation1 (binary_erosion1 img S) S := rfl
  have elen : (binary_erosion1 img S).len = img.len := rfl
  rw [e, dilation1_as_Dil (binary_erosion1 img S) S hodd hstar x (by rw [elen]; exact hx)]
  rw [elen]
  exact Dil_congr (fun y hy => erosion1_as_Ero img S hodd hstar y hy) x hx

theorem closing1_as (img S : Img1) (hodd : S.len % 2 = 1) (hstar : star1 S)
    (x : ℤ) (hx : inB1 img.len x) :
    (binary_closing1 img S).pix x = true ↔
      Ero (inB1 img.len) (inF1 S)
        (Dil (inB1 img.len) (inF1 S) (fun y => img.pix y = true)) x := by
  have e : binary_closing1 img S = binary_erosion1 (binary_dilation1 img S) S := rfl
  have elen : (binary_dilation1 img S).len = img.len := rfl
  rw [e, erosion1_as_Ero (binary_dilation1 img S) S hodd hstar x (by rw [elen]; exact hx)]
  rw [elen]
  exact Ero_congr (fun y hy => dilation1_as_Dil img S hodd hstar y hy) x hx

/-! ## Rank 2: perimeter soundness and the star step -/

theorem perimeter2_pix {img : Img2} {x y : ℤ} (h : perimeter2 img x y = true) :
    img.pix x y = true :=
  ((Bool.and_eq_true _ _).mp h).1

theorem inner2_of_not_perim {img : Img2} {x y : ℤ} (hpix : img.pix x y = true)
    (hnp : ¬ perimeter2 img x y = true) : inner2 img x y = true := by
  cases hin : inner2 img x y
  · exfalso
    apply hnp
    unfold perimeter2
    rw [hpix, hin]
    rfl
  · rfl

/-- Soundness of the rank-2 `inner` mask: each threshold (`4` anywhere, `3`
on boundary rows/columns, `2` at corners) is at least the number of in-bounds
neighbors of any cell it applies to, so a cell matching it has all its
in-bounds neighbors foreground. -/
theorem inner2_sound (img : Img2) (x y : ℤ)
    (hB : inB2 img.lx img.ly x y) (hpix : img.pix x y = true)
    (hin : inner2 img x y = true)
    (u v : ℤ) (hAdj : (u - x).natAbs + (v - y).natAbs = 1)
    (hBj : inB2 img.lx img.ly u v) :
    img.pix u v = true := by
  unfold inB2 at hB hBj
  by_contra hp
  have hcase : (u = x - 1 ∧ v = y) ∨ (u = x + 1 ∧ v = y) ∨ (u = x ∧ v = y - 1) ∨
      (u = x ∧ v = y + 1) := by omega
  unfold inner2 at hin
  simp only [Bool.or_eq_true, Bool.and_eq_true, decide_eq_true_eq] at hin
  have b1 : (if 1 ≤ x ∧ img.pix (x - 1) y = true then 1 else 0) ≤ 1 := by
    split <;> omega
  have b2 : (if x + 1 < (img.lx : ℤ) ∧ img.pix (x + 1) y = true then 1 else 0) ≤ 1 := by
    split <;> omega
  have b3 : (if 1 ≤ y ∧ img.pix x (y - 1) = true then 1 else 0) ≤ 1 := by
    split <;> omega
  have b4 : (if y + 1 < (img.ly : ℤ) ∧ img.pix x (y + 1) = true then 1 else 0) ≤ 1 := by
    split <;> omega
  have w1 : (if 1 ≤ x ∧ img.pix (x - 1) y = true then 1 else 0) = 0 ∨ 1 ≤ x := by
    by_cases h : 1 ≤ x ∧ img.pix (x - 1) y = true
    · exact Or.inr h.1
    · exact Or.inl (if_neg h)
  have w2 : (if x + 1 < (img.lx : ℤ) ∧ img.pix (x + 1) y = true then 1 else 0) = 0 ∨
      x + 1 < (img.lx : ℤ) := by
    by_cases h : x + 1 < (img.lx : ℤ) ∧ img.pix (x + 1) y = true
    · exact Or.inr h.1
    · exact Or.inl (if_neg h)
  have w3 : (if 1 ≤ y ∧ img.pix x (y - 1) = true then 1 else 0) = 0 ∨ 1 ≤ y := by
    by_cases h : 1 ≤ y ∧ img.pix x (y - 1) = true
    · exact Or.inr h.1
    · exact Or.inl (if_neg h)
  have w4 : (if y + 1 < (img.ly : ℤ) ∧ img.pix x (y + 1) = true then 1 else 0) = 0 ∨
      y + 1 < (img.ly : ℤ) := by
    by_cases h : y + 1 < (img.ly : ℤ) ∧ img.pix x (y + 1) = true
    · exact Or.inr h.1
    · exact Or.inl (if_neg h)
  unfold count2 at hin
  rcases hcase with ⟨hu, hv⟩ | ⟨hu, hv⟩ | ⟨hu, hv⟩ | ⟨hu, hv⟩ <;> rw [hu, hv] at hp
  · have n : (if 1 ≤ x ∧ img.pix (x - 1) y = true then 1 else 0) = 0 :=
      if_neg (by rintro ⟨_, hq⟩; exact hp hq)
    omega
  · have n : (if x + 1 < (img.lx : ℤ) ∧ img.pix (x + 1) y = true then 1 else 0) = 0 :=
      if_neg (by rintro ⟨_, hq⟩; exact hp hq)
    omega
  · have n : (if 1 ≤ y ∧ img.pix x (y - 1) = true then 1 else 0) = 0 :=
      if_neg (by rintro ⟨_, hq⟩; exact hp hq)
    omega
  · have n : (if y + 1 < (img.ly : ℤ) ∧ img.pix x (y + 1) = true then 1 else 0) = 0 :=
      if_neg (by rintro ⟨_, hq⟩; exact hp hq)
    omega

/-- The rank-2 star condition supplies a shorter footprint offset one axis
step closer to the center, with the stepped source cell in bounds. -/
theorem star2_step (S : Img2) (hoddx : S.lx % 2 = 1) (hoddy : S.ly % 2 = 1)
    (hstar : star2 S) (lx ly : ℕ) :
    ∀ o : ℤ × ℤ, inF2 S o → (o.1.natAbs + o.2.natAbs) ≠ 0 →
      ∀ i : ℤ × ℤ, inB2 lx ly i.1 i.2 → inB2 lx ly (i + o).1 (i + o).2 →
        ∃ q : ℤ × ℤ, inF2 S q ∧ (q.1.natAbs + q.2.natAbs) < (o.1.natAbs + o.2.natAbs) ∧
          (((i + o - q).1 - i.1).natAbs + ((i + o - q).2 - i.2).natAbs = 1) ∧
          inB2 lx ly (i + o - q).1 (i + o - q).2 := by
  intro o hF hne i hBi hBio
  obtain ⟨hu1, hu2, hv1, hv2, hpix⟩ := hF
  unfold inB2 at hBi hBio ⊢
  rw [Prod.fst_add, Prod.snd_add] at hBio
  have hrx : (S.lx : ℤ) = 2 * ((S.lx : ℤ) / 2) + 1 := by omega
  have hry : (S.ly : ℤ) = 2 * ((S.ly : ℤ) / 2) + 1 := by omega
  have e1 : (((o.1 + (S.lx : ℤ) / 2).toNat : ℕ) : ℤ) = o.1 + (S.lx : ℤ) / 2 := by omega
  have e2 : (((o.2 + (S.ly : ℤ) / 2).toNat : ℕ) : ℤ) = o.2 + (S.ly : ℤ) / 2 := by omega
  have hapix : S.pix (((o.1 + (S.lx : ℤ) / 2).toNat : ℕ) : ℤ)
      (((o.2 + (S.ly : ℤ) / 2).toNat : ℕ) : ℤ) = true := by
    rw [e1, e2]; exact hpix
  have hstep := hstar _ (by omega) _ (by omega) hapix (by omega)
  unfold toward at hstep
  rcases hstep with ⟨hnc, hstep⟩ | ⟨hnc, hstep⟩
  · -- step along the first axis
    by_cases hlt : (o.1 + (S.lx : ℤ) / 2).toNat < S.lx / 2
    · -- o.1 < 0 : shorter offset (o.1 + 1, o.2); source cell (i.1 - 1, i.2)
      rw [if_pos hlt] at hstep
      have ho : o.1 < 0 := by omega
      have e3 : (((o.1 + (S.lx : ℤ) / 2).toNat + 1 : ℕ) : ℤ) =
          (o.1 + 1) + (S.lx : ℤ) / 2 := by omega
      rw [e3, e2] at hstep
      refine ⟨(o.1 + 1, o.2), ⟨by omega, by omega, by omega, by omega, hstep⟩,
        by omega, ?_, ?_⟩
      · simp only [Prod.fst_add, Prod.fst_sub, Prod.snd_add, Prod.snd_sub]
        omega
      · simp only [Prod.fst_add, Prod.fst_sub, Prod.snd_add, Prod.snd_sub]
        constructor
        · omega
        · refine ⟨by omega, by omega, by omega⟩
    · -- o.1 > 0 : shorter offset (o.1 - 1, o.2); source cell (i.1 + 1, i.2)
      rw [if_neg hlt] at hstep
      have ho : 0 < o.1 := by omega
      have e3 : (((o.1 + (S.lx : ℤ) / 2).toNat - 1 : ℕ) : ℤ) =
          (o.1 - 1) + (S.lx : ℤ) / 2 := by omega
      rw [e3, e2] at hstep
      refine ⟨(o.1 - 1, o.2), ⟨by omega, by omega, by omega, by omega, hstep⟩,
        by omega, ?_, ?_⟩
      · simp only [Prod.fst_add, Prod.fst_sub, Prod.snd_add, Prod.snd_sub]
        omega
      · simp only [Prod.fst_add, Prod.fst_sub, Prod.snd_add, Prod.snd_sub]
        refine ⟨by omega, by omega, by omega, by omega⟩
  · -- step along the second axis
    by_cases hlt : (o.2 + (S.ly : ℤ) / 2).toNat < S.ly / 2
    · rw [if_pos hlt] at hstep
      have ho : o.2 < 0 := by omega
      have e3 : (((o.2 + (S.ly : ℤ) / 2).toNat + 1 : ℕ) : ℤ) =
          (o.2 + 1) + (S.ly : ℤ) / 2 := by omega
      rw [e3, e1] at hstep
      refine ⟨(o.1, o.2 + 1), ⟨by omega, by omega, by omega, by omega, hstep⟩,
        by omega, ?_, ?_⟩
      · simp only [Prod.fst_add, Prod.fst_sub, Prod.snd_add, Prod.snd_sub]
        omega
      · simp only [Prod.fst_add, Prod.fst_sub, Prod.snd_add, Prod.snd_sub]
        refine ⟨by omega, by omega, by omega, by omega⟩
    · rw [if_neg hlt] at hstep
      have ho : 0 < o.2 := by omega
      have e3 : (((o.2 + (S.ly : ℤ) / 2).toNat - 1 : ℕ) : ℤ) =
          (o.2 - 1) + (S.ly : ℤ) / 2 := by omega
      rw [e3, e1] at hstep
      refine ⟨(o.1, o.2 - 1), ⟨by omega, by omega, by omega, by omega, hstep⟩,
        by omega, ?_, ?_⟩
      · simp only [Prod.fst_add, Prod.fst_sub, Prod.snd_add, Prod.snd_sub]
        omega
      · simp only [Prod.fst_add, Prod.fst_sub, Prod.snd_add, Prod.snd_sub]
        refine ⟨by omega, by omega, by omega, by omega⟩

/-- Point symmetry of the rank-2 element gives footprint symmetry. -/
theorem symmetric2_neg (S : Img2) (hoddx : S.lx % 2 = 1) (hoddy : S.ly % 2 = 1)
    (hsym : symmetric2 S) : ∀ o : ℤ × ℤ, inF2 S o → inF2 S (-o) := by
  rintro o ⟨h1, h2, h3, h4, hp⟩
  have hrx : (S.lx : ℤ) = 2 * ((S.lx : ℤ) / 2) + 1 := by omega
  have hry : (S.ly : ℤ) = 2 * ((S.ly : ℤ) / 2) + 1 := by omega
  refine ⟨by simp; omega, by simp; omega, by simp; omega, by simp; omega, ?_⟩
  have e1 : (((o.1 + (S.lx : ℤ) / 2).toNat : ℕ) : ℤ) = o.1 + (S.lx : ℤ) / 2 := by omega
  have e2 : (((o.2 + (S.ly : ℤ) / 2).toNat : ℕ) : ℤ) = o.2 + (S.ly : ℤ) / 2 := by omega
  have e3 : ((S.lx - 1 - (o.1 + (S.lx : ℤ) / 2).toNat : ℕ) : ℤ) =
      (-o).1 + (S.lx : ℤ) / 2 := by simp; omega
  have e4 : ((S.ly - 1 - (o.2 + (S.ly : ℤ) / 2).toNat : ℕ) : ℤ) =
      (-o).2 + (S.ly : ℤ) / 2 := by simp; omega
  have h := hsym (o.1 + (S.lx : ℤ) / 2).toNat (by omega) (o.2 + (S.ly : ℤ) / 2).toNat
    (by omega)
  rw [e1, e2, e3, e4] at h
  rw [← h]
  exact hp

/-! ## Rank 2: pixel characterizations -/

theorem binary_dilation2_pix (img S : Img2) (x y : ℤ) :
    (binary_dilation2 img S).pix x y = true ↔
      img.pix x y = true ∨ ∃ i : ℤ × ℤ,
        (inB2 img.lx img.ly i.1 i.2 ∧ perimeter2 img i.1 i.2 = true) ∧
        (0 ≤ x ∧ x < (img.lx : ℤ) ∧ 0 ≤ y ∧ y < (img.ly : ℤ) ∧
          inF2 S (x - i.1, y - i.2)) := by
  have h : (binary_dilation2 img S).pix x y =
      ((perim_coords2 img).foldl (slice_or2 S (img.lx : ℤ) (img.ly : ℤ)) img.pix) x y :=
    rfl
  rw [h, foldl_slice_or2, Bool.or_eq_true, List.any_eq_true]
  constructor
  · rintro (h | ⟨i, hmem, hcov⟩)
    · exact Or.inl h
    · rw [mem_perim_coords2] at hmem
      rw [sliceCover2_iff] at hcov
      exact Or.inr ⟨i, hmem, hcov⟩
  · rintro (h | ⟨i, hmem, hcov⟩)
    · exact Or.inl h
    · refine Or.inr ⟨i, ?_, ?_⟩
      · rw [mem_perim_coords2]; exact hmem
      · rw [sliceCover2_iff]; exact hcov

theorem reference_dilation2_pix (img S : Img2) (x y : ℤ) :
    (reference_dilation2 img S).pix x y = true ↔
      img.pix x y = true ∨ ∃ i : ℤ × ℤ,
        (inB2 img.lx img.ly i.1 i.2 ∧ img.pix i.1 i.2 = true) ∧
        (0 ≤ x ∧ x < (img.lx : ℤ) ∧ 0 ≤ y ∧ y < (img.ly : ℤ) ∧
          inF2 S (x - i.1, y - i.2)) := by
  have h : (reference_dilation2 img S).pix x y =
      (img.pix x y || (fg_coords2 img).any fun i =>
        footprint_hits2 S (img.lx : ℤ) (img.ly : ℤ) i x y) := rfl
  rw [h, Bool.or_eq_true, List.any_eq_true]
  constructor
  · rintro (h | ⟨i, hmem, hcov⟩)
    · exact Or.inl h
    · rw [mem_fg_coords2] at hmem
      rw [footprint_hits2_iff] at hcov
      exact Or.inr ⟨i, hmem, hcov⟩
  · rintro (h | ⟨i, hmem, hcov⟩)
    · exact Or.inl h
    · refine Or.inr ⟨i, ?_, ?_⟩
      · rw [mem_fg_coords2]; exact hmem
      · rw [footprint_hits2_iff]; exact hcov

theorem reference2_as_Dil (img S : Img2) (p : ℤ × ℤ)
    (hp : inB2 img.lx img.ly p.1 p.2) :
    (reference_dilation2 img S).pix p.1 p.2 = true ↔
      Dil (fun q : ℤ × ℤ => inB2 img.lx img.ly q.1 q.2) (inF2 S)
        (fun q => img.pix q.1 q.2 = true) p := by
  rw [reference_dilation2_pix]
  unfold Dil
  unfold inB2 at hp
  constructor
  · rintro (h | ⟨i, ⟨hBi, hXi⟩, _, _, _, _, hF⟩)
    · exact Or.inl h
    · right
      have e : p - (p - i) = i := by abel
      have e2 : p - i = (p.1 - i.1, p.2 - i.2) := rfl
      refine ⟨p - i, by rw [e2]; exact hF, by rw [e]; exact hBi, by rw [e]; exact hXi⟩
  · rintro (h | ⟨o, hF, hB, hX⟩)
    · exact Or.inl h
    · right
      have e : p - (p - o) = o := by abel
      have e2 : p - (p - o) = (p.1 - (p - o).1, p.2 - (p - o).2) := rfl
      refine ⟨p - o, ⟨hB, hX⟩, hp.1, hp.2.1, hp.2.2.1, hp.2.2.2, ?_⟩
      rw [← e2, e]
      exact hF

/-- The rank-2 perimeter-restricted dilation has the spreading denotation
`Dil` for star-shaped structuring elements. -/
theorem dilation2_as_Dil (img S : Img2) (hoddx : S.lx % 2 = 1) (hoddy : S.ly % 2 = 1)
    (hstar : star2 S) (p : ℤ × ℤ) (hp : inB2 img.lx img.ly p.1 p.2) :
    (binary_dilation2 img S).pix p.1 p.2 = true ↔
      Dil (fun q : ℤ × ℤ => inB2 img.lx img.ly q.1 q.2) (inF2 S)
        (fun q => img.pix q.1 q.2 = true) p := by
  rw [binary_dilation2_pix]
  unfold Dil
  constructor
  · rintro (h | ⟨i, ⟨hBi, hper⟩, _, _, _, _, hF⟩)
    · exact Or.inl h
    · right
      have e : p - (p - i) = i := by abel
      have e2 : p - i = (p.1 - i.1, p.2 - i.2) := rfl
      exact ⟨p - i, by rw [e2]; exact hF, by rw [e]; exact hBi,
        by rw [e]; exact perimeter2_pix hper⟩
  · rintro (h | ⟨o, hF, hB, hX⟩)
    · exact Or.inl h
    · have hio : (p - o) + o = p := by abel
      have hres := perim_cover (fun q : ℤ × ℤ => inB2 img.lx img.ly q.1 q.2) (inF2 S)
        (fun q => img.pix q.1 q.2 = true) (fun q => perimeter2 img q.1 q.2 = true)
        (fun q => q.1.natAbs + q.2.natAbs)
        (fun i j => (j.1 - i.1).natAbs + (j.2 - i.2).natAbs = 1)
        (fun i hBi hXi hPi j hAdj hBj =>
          inner2_sound img i.1 i.2 hBi hXi (inner2_of_not_perim hXi hPi)
            j.1 j.2 hAdj hBj)
        (star2_step S hoddx hoddy hstar img.lx img.ly)
        (fun o ho => by
          have ho2 : o.1.natAbs + o.2.natAbs = 0 := ho
          have e : o = (o.1, o.2) := rfl
          rw [e]
          have h1 : o.1 = 0 := by omega
          have h2 : o.2 = 0 := by omega
          rw [h1, h2]
          rfl)
        (o.1.natAbs + o.2.natAbs) o (p - o) rfl hF hB hX (by rw [hio]; exact hp)
      rw [hio] at hres
      rcases hres with hX2 | ⟨q, hBq, hPq, hFq⟩
      · exact Or.inl hX2
      · unfold inB2 at hp
        have e2 : p - q = (p.1 - q.1, p.2 - q.2) := rfl
        refine Or.inr ⟨q, ⟨hBq, hPq⟩, hp.1, hp.2.1, hp.2.2.1, hp.2.2.2, ?_⟩
        rw [← e2]
        exact hFq

/-- Dilation only adds foreground (rank 2). -/
theorem dilation2_sup (img S : Img2) (x y : ℤ) (h : img.pix x y = true) :
    (binary_dilation2 img S).pix x y = true := by
  have e : (binary_dilation2 img S).pix x y =
      ((perim_coords2 img).foldl (slice_or2 S (img.lx : ℤ) (img.ly : ℤ)) img.pix) x y :=
    rfl
  rw [e, foldl_slice_or2, h, Bool.true_or]

/-- Erosion only removes foreground (rank 2). -/
theorem erosion2_sub (img S : Img2) (x y : ℤ)
    (h : (binary_erosion2 img S).pix x y = true) : img.pix x y = true := by
  have e : (binary_erosion2 img S).pix x y =
      !(binary_dilation2 (compl2 img) S).pix x y := rfl
  rw [e, Bool.not_eq_true'] at h
  by_cases hp : img.pix x y = true
  · exact hp
  · exfalso
    have hc : (compl2 img).pix x y = true := by
      have e2 : (compl2 img).pix x y = !img.pix x y := rfl
      rw [e2, Bool.not_eq_true']
      exact Bool.eq_false_iff.mpr hp
    rw [dilation2_sup (compl2 img) S x y hc] at h
    cases h

theorem erosion2_as_Ero (img S : Img2) (hoddx : S.lx % 2 = 1) (hoddy : S.ly % 2 = 1)
    (hstar : star2 S) (p : ℤ × ℤ) (hp : inB2 img.lx img.ly p.1 p.2) :
    (binary_erosion2 img S).pix p.1 p.2 = true ↔
      Ero (fun q : ℤ × ℤ => inB2 img.lx img.ly q.1 q.2) (inF2 S)
        (fun q => img.pix q.1 q.2 = true) p := by
  have e : (binary_erosion2 img S).pix p.1 p.2 =
      !(binary_dilation2 (compl2 img) S).pix p.1 p.2 := rfl
  rw [e, Bool.not_eq_true', ← Bool.not_eq_true]
  rw [dilation2_as_Dil (compl2 img) S hoddx hoddy hstar p hp]
  unfold Dil Ero
  have ec : ∀ q : ℤ × ℤ, ((compl2 img).pix q.1 q.2 = true) ↔ ¬(img.pix q.1 q.2 = true) := by
    intro q
    have e2 : (compl2 img).pix q.1 q.2 = !img.pix q.1 q.2 := rfl
    rw [e2, Bool.not_eq_true', Bool.eq_false_iff]
  constructor
  · intro h
    push_neg at h
    obtain ⟨h1, h2⟩ := h
    refine ⟨by_contra fun hc => h1 ((ec p).mpr hc), fun o hF hB => ?_⟩
    by_contra hc
    exact h2 o hF hB ((ec (p - o)).mpr hc)
  · rintro ⟨h1, h2⟩ h
    rcases h with hX | ⟨o, hF, hB, hX⟩
    · exact (ec p).mp hX h1
    · exact (ec (p - o)).mp hX (h2 o hF hB)

theorem opening2_as (img S : Img2) (hoddx : S.lx % 2 = 1) (hoddy : S.ly % 2 = 1)
    (hstar : star2 S) (p : ℤ × ℤ) (hp : inB2 img.lx img.ly p.1 p.2) :
    (binary_opening2 img S).pix p.1 p.2 = true ↔
      Dil (fun q : ℤ × ℤ => inB2 img.lx img.ly q.1 q.2) (inF2 S)
        (Ero (fun q : ℤ × ℤ => inB2 img.lx img.ly q.1 q.2) (inF2 S)
          (fun q => img.pix q.1 q.2 = true)) p := by
  have e : binary_opening2 img S = binary_dilation2 (binary_erosion2 img S) S := rfl
  have elen : (binary_erosion2 img S).lx = img.lx ∧ (binary_erosion2 img S).ly = img.ly :=
    ⟨rfl, rfl⟩
  rw [e, dilation2_as_Dil (binary_erosion2 img S) S hoddx hoddy hstar p hp]
  exact Dil_congr (fun q hq => erosion2_as_Ero img S hoddx hoddy hstar q hq) p hp

theorem closing2_as (img S : Img2) (hoddx : S.lx % 2 = 1) (hoddy : S.ly % 2 = 1)
    (hstar : star2 S) (p : ℤ × ℤ) (hp : inB2 img.lx img.ly p.1 p.2) :
    (binary_closing2 img S).pix p.1 p.2 = true ↔
      Ero (fun q : ℤ × ℤ => inB2 img.lx img.ly q.1 q.2) (inF2 S)
        (Dil (fun q : ℤ × ℤ => inB2 img.lx img.ly q.1 q.2) (inF2 S)
          (fun q => img.pix q.1 q.2 = true)) p := by
  have e : binary_closing2 img S = binary_erosion2 (binary_dilation2 img S) S := rfl
  rw [e, erosion2_as_Ero (binary_dilation2 img S) S hoddx hoddy hstar p hp]
  exact Ero_congr (fun q hq => dilation2_as_Dil img S hoddx hoddy hstar q hq) p hp

/-! ## Rank 3: perimeter soundness and the star step -/

theorem perimeter3_pix {img : Img3} {x y z : ℤ} (h : perimeter3 img x y z = true) :
    img.pix x y z = true :=
  ((Bool.and_eq_true _ _).mp h).1

theorem inner3_of_not_perim {img : Img3} {x y z : ℤ} (hpix : img.pix x y z = true)
    (hnp : ¬ perimeter3 img x y z = true) : inner3 img x y z = true := by
  cases hin : inner3 img x y z
  · exfalso
    apply hnp
    unfold perimeter3
    rw [hpix, hin]
    rfl
  · rfl

set_option maxHeartbeats 1000000 in
/-- Arithmetic core of the rank-3 `inner` soundness argument: six neighbor
indicators bounded by one, killed by the matching border position, one of
them positionally live but zero (the failing neighbor), against each of the
code's threshold conditions. -/
theorem inner3_count_core (lx ly lz x y z : ℤ) (t1 t2 t3 t4 t5 t6 : ℕ)
    (b1 : t1 ≤ 1) (b2 : t2 ≤ 1) (b3 : t3 ≤ 1) (b4 : t4 ≤ 1) (b5 : t5 ≤ 1) (b6 : t6 ≤ 1)
    (d1 : x = 0 → t1 = 0) (d2 : x = lx - 1 → t2 = 0) (d3 : y = 0 → t3 = 0)
    (d4 : y = ly - 1 → t4 = 0) (d5 : z = 0 → t5 = 0) (d6 : z = lz - 1 → t6 = 0)
    (hn : (1 ≤ x ∧ t1 = 0) ∨ (x + 1 < lx ∧ t2 = 0) ∨ (1 ≤ y ∧ t3 = 0) ∨
      (y + 1 < ly ∧ t4 = 0) ∨ (1 ≤ z ∧ t5 = 0) ∨ (z + 1 < lz ∧ t6 = 0))
    (hin : ((((((t1 + t2 + t3 + t4 + t5 + t6 = 6 ∨
      ((x = 0 ∨ x = lx - 1) ∧ t1 + t2 + t3 + t4 + t5 + t6 = 5)) ∨
      ((y = 0 ∨ y = ly - 1) ∧ t1 + t2 + t3 + t4 + t5 + t6 = 5)) ∨
      ((z = 0 ∨ z = lz - 1) ∧ t1 + t2 + t3 + t4 + t5 + t6 = 5)) ∨
      (((x = 0 ∨ x = lx - 1) ∧ (y = 0 ∨ y = ly - 1)) ∧
        t1 + t2 + t3 + t4 + t5 + t6 = 4)) ∨
      (((y = 0 ∨ y = ly - 1) ∧ (z = 0 ∨ z = lz - 1)) ∧
        t1 + t2 + t3 + t4 + t5 + t6 = 4)) ∨
      (((x = 0 ∨ x = lx - 1) ∧ (z = 0 ∨ z = lz - 1)) ∧
        t1 + t2 + t3 + t4 + t5 + t6 = 4)) ∨
      ((((x = 0 ∨ x = lx - 1) ∧ (y = 0 ∨ y = ly - 1)) ∧ (z = 0 ∨ z = lz - 1)) ∧
        t1 + t2 + t3 + t4 + t5 + t6 = 3)) : False := by
  omega

/-- Soundness of the rank-3 `inner` mask: every threshold (`6` anywhere, `5`
on faces, `4` on edges, `3` at corners) is at least the number of in-bounds
neighbors of any cell it applies to. -/
theorem inner3_sound (img : Img3) (x y z : ℤ)
    (hB : inB3 img.lx img.ly img.lz x y z) (hpix : img.pix x y z = true)
    (hin : inner3 img x y z = true)
    (u v w : ℤ) (hAdj : (u - x).natAbs + (v - y).natAbs + (w - z).natAbs = 1)
    (hBj : inB3 img.lx img.ly img.lz u v w) :
    img.pix u v w = true := by
  unfold inB3 at hB hBj
  by_contra hp
  unfold inner3 at hin
  simp only [onBorder, Bool.or_eq_true, Bool.and_eq_true, decide_eq_true_eq] at hin
  unfold count3 at hin
  refine inner3_count_core (img.lx : ℤ) (img.ly : ℤ) (img.lz : ℤ) x y z
    (if 1 ≤ x ∧ img.pix (x - 1) y z = true then 1 else 0)
    (if x + 1 < (img.lx : ℤ) ∧ img.pix (x + 1) y z = true then 1 else 0)
    (if 1 ≤ y ∧ img.pix x (y - 1) z = true then 1 else 0)
    (if y + 1 < (img.ly : ℤ) ∧ img.pix x (y + 1) z = true then 1 else 0)
    (if 1 ≤ z ∧ img.pix x y (z - 1) = true then 1 else 0)
    (if z + 1 < (img.lz : ℤ) ∧ img.pix x y (z + 1) = true then 1 else 0)
    (by split <;> omega) (by split <;> omega) (by split <;> omega)
    (by split <;> omega) (by split <;> omega) (by split <;> omega)
    (fun h => if_neg (by rintro ⟨h1, _⟩; omega))
    (fun h => if_neg (by rintro ⟨h1, _⟩; omega))
    (fun h => if_neg (by rintro ⟨h1, _⟩; omega))
    (fun h => if_neg (by rintro ⟨h1, _⟩; omega))
    (fun h => if_neg (by rintro ⟨h1, _⟩; omega))
    (fun h => if_neg (by rintro ⟨h1, _⟩; omega))
    ?_ hin
  clear hin
  by_cases e1 : u = x
  · by_cases e2 : v = y
    · have h2 : w = z - 1 ∨ w = z + 1 := by omega
      rcases h2 with hw | hw <;> rw [e1, e2, hw] at hp
      · exact Or.inr (Or.inr (Or.inr (Or.inr (Or.inl ⟨by omega,
          if_neg (by rintro ⟨_, hq⟩; exact hp hq)⟩))))
      · exact Or.inr (Or.inr (Or.inr (Or.inr (Or.inr ⟨by omega,
          if_neg (by rintro ⟨_, hq⟩; exact hp hq)⟩))))
    · have h2 : (v = y - 1 ∨ v = y + 1) ∧ w = z := by omega
      obtain ⟨hv, hw⟩ := h2
      rcases hv with hv | hv <;> rw [e1, hv, hw] at hp
      · exact Or.inr (Or.inr (Or.inl ⟨by omega,
          if_neg (by rintro ⟨_, hq⟩; exact hp hq)⟩))
      · exact Or.inr (Or.inr (Or.inr (Or.inl ⟨by omega,
          if_neg (by rintro ⟨_, hq⟩; exact hp hq)⟩)))
  · have h2 : (u = x - 1 ∨ u = x + 1) ∧ v = y ∧ w = z := by omega
    obtain ⟨hu, hv, hw⟩ := h2
    rcases hu with hu | hu <;> rw [hu, hv, hw] at hp
    · exact Or.inl ⟨by omega, if_neg (by rintro ⟨_, hq⟩; exact hp hq)⟩
    · exact Or.inr (Or.inl ⟨by omega, if_neg (by rintro ⟨_, hq⟩; exact hp hq)⟩)

/-- The rank-3 star condition supplies a shorter footprint offset one axis
step closer to the center, with the stepped source cell in bounds. -/
theorem star3_step (S : Img3) (hox : S.lx % 2 = 1) (hoy : S.ly % 2 = 1)
    (hoz : S.lz % 2 = 1) (hstar : star3 S) (lx ly lz : ℕ) :
    ∀ o : ℤ × ℤ × ℤ, inF3 S o → (o.1.natAbs + o.2.1.natAbs + o.2.2.natAbs) ≠ 0 →
      ∀ i : ℤ × ℤ × ℤ, inB3 lx ly lz i.1 i.2.1 i.2.2 →
        inB3 lx ly lz (i + o).1 (i + o).2.1 (i + o).2.2 →
        ∃ q : ℤ × ℤ × ℤ, inF3 S q ∧
          (q.1.natAbs + q.2.1.natAbs + q.2.2.natAbs) <
            (o.1.natAbs + o.2.1.natAbs + o.2.2.natAbs) ∧
          (((i + o - q).1 - i.1).natAbs + ((i + o - q).2.1 - i.2.1).natAbs +
            ((i + o - q).2.2 - i.2.2).natAbs = 1) ∧
          inB3 lx ly lz (i + o - q).1 (i + o - q).2.1 (i + o - q).2.2 := by
  intro o hF hne i hBi hBio
  obtain ⟨ha1, ha2, hb1, hb2, hc1, hc2, hpix⟩ := hF
  unfold inB3 at hBi hBio ⊢
  rw [Prod.fst_add, Prod.snd_add, Prod.fst_add, Prod.snd_add] at hBio
  have hrx : (S.lx : ℤ) = 2 * ((S.lx : ℤ) / 2) + 1 := by first | omega | (dsimp only; omega)
  have hry : (S.ly : ℤ) = 2 * ((S.ly : ℤ) / 2) + 1 := by first | omega | (dsimp only; omega)
  have hrz : (S.lz : ℤ) = 2 * ((S.lz : ℤ) / 2) + 1 := by first | omega | (dsimp only; omega)
  have e1 : (((o.1 + (S.lx : ℤ) / 2).toNat : ℕ) : ℤ) = o.1 + (S.lx : ℤ) / 2 := by first | omega | (dsimp only; omega)
  have e2 : (((o.2.1 + (S.ly : ℤ) / 2).toNat : ℕ) : ℤ) = o.2.1 + (S.ly : ℤ) / 2 := by
    omega
  have e3 : (((o.2.2 + (S.lz : ℤ) / 2).toNat : ℕ) : ℤ) = o.2.2 + (S.lz : ℤ) / 2 := by
    omega
  have hapix : S.pix (((o.1 + (S.lx : ℤ) / 2).toNat : ℕ) : ℤ)
      (((o.2.1 + (S.ly : ℤ) / 2).toNat : ℕ) : ℤ)
      (((o.2.2 + (S.lz : ℤ) / 2).toNat : ℕ) : ℤ) = true := by
    rw [e1, e2, e3]; exact hpix
  have hstep := hstar _ (by first | omega | (dsimp only; omega)) _ (by first | omega | (dsimp only; omega)) _ (by first | omega | (dsimp only; omega)) hapix (by first | omega | (dsimp only; omega))
  unfold toward at hstep
  rcases hstep with ⟨hnc, hstep⟩ | ⟨hnc, hstep⟩ | ⟨hnc, hstep⟩
  · by_cases hlt : (o.1 + (S.lx : ℤ) / 2).toNat < S.lx / 2
    · rw [if_pos hlt] at hstep
      have ho : o.1 < 0 := by first | omega | (dsimp only; omega)
      have e4 : (((o.1 + (S.lx : ℤ) / 2).toNat + 1 : ℕ) : ℤ) =
          (o.1 + 1) + (S.lx : ℤ) / 2 := by first | omega | (dsimp only; omega)
      rw [e4, e2, e3] at hstep
      refine ⟨(o.1 + 1, o.2.1, o.2.2),
        ⟨by first | omega | (dsimp only; omega), by first | omega | (dsimp only; omega), by first | omega | (dsimp only; omega), by first | omega | (dsimp only; omega), by first | omega | (dsimp only; omega), by first | omega | (dsimp only; omega), by
          have eo : o = (o.1, o.2.1, o.2.2) := rfl
          exact hstep⟩, by first | omega | (dsimp only; omega), ?_, ?_⟩
      · simp only [Prod.fst_add, Prod.fst_sub, Prod.snd_add, Prod.snd_sub]
        omega
      · simp only [Prod.fst_add, Prod.fst_sub, Prod.snd_add, Prod.snd_sub]
        refine ⟨by first | omega | (dsimp only; omega), by first | omega | (dsimp only; omega), by first | omega | (dsimp only; omega), by first | omega | (dsimp only; omega), by first | omega | (dsimp only; omega), by first | omega | (dsimp only; omega)⟩
    · rw [if_neg hlt] at hstep
      have ho : 0 < o.1 := by first | omega | (dsimp only; omega)
      have e4 : (((o.1 + (S.lx : ℤ) / 2).toNat - 1 : ℕ) : ℤ) =
          (o.1 - 1) + (S.lx : ℤ) / 2 := by first | omega | (dsimp only; omega)
      rw [e4, e2, e3] at hstep
      refine ⟨(o.1 - 1, o.2.1, o.2.2),
        ⟨by first | omega | (dsimp only; omega), by first | omega | (dsimp only; omega), by first | omega | (dsimp only; omega), by first | omega | (dsimp only; omega), by first | omega | (dsimp only; omega), by first | omega | (dsimp only; omega), hstep⟩,
        by first | omega | (dsimp only; omega), ?_, ?_⟩
      · simp only [Prod.fst_add, Prod.fst_sub, Prod.snd_add, Prod.snd_sub]
        omega
      · simp only [Prod.fst_add, Prod.fst_sub, Prod.snd_add, Prod.snd_sub]
        refine ⟨by first | omega | (dsimp only; omega), by first | omega | (dsimp only; omega), by first | omega | (dsimp only; omega), by first | omega | (dsimp only; omega), by first | omega | (dsimp only; omega), by first | omega | (dsimp only; omega)⟩
  · by_cases hlt : (o.2.1 + (S.ly : ℤ) / 2).toNat < S.ly / 2
    · rw [if_pos hlt] at hstep
      have ho : o.2.1 < 0 := by first | omega | (dsimp only; omega)
      have e4 : (((o.2.1 + (S.ly : ℤ) / 2).toNat + 1 : ℕ) : ℤ) =
          (o.2.1 + 1) + (S.ly : ℤ) / 2 := by first | omega | (dsimp only; omega)
      rw [e4, e1, e3] at hstep
      refine ⟨(o.1, o.2.1 + 1, o.2.2),
        ⟨by first | omega | (dsimp only; omega), by first | omega | (dsimp only; omega), by first | omega | (dsimp only; omega), by first | omega | (dsimp only; omega), by first | omega | (dsimp only; omega), by first | omega | (dsimp only; omega), hstep⟩,
        by first | omega | (dsimp only; omega), ?_, ?_⟩
      · simp only [Prod.fst_add, Prod.fst_sub, Prod.snd_add, Prod.snd_sub]
        omega
      · simp only [Prod.fst_add, Prod.fst_sub, Prod.snd_add, Prod.snd_sub]
        refine ⟨by first | omega | (dsimp only; omega), by first | omega | (dsimp only; omega), by first | omega | (dsimp only; omega), by first | omega | (dsimp only; omega), by first | omega | (dsimp only; omega), by first | omega | (dsimp only; omega)⟩
    · rw [if_neg hlt] at hstep
      have ho : 0 < o.2.1 := by first | omega | (dsimp only; omega)
      have e4 : (((o.2.1 + (S.ly : ℤ) / 2).toNat - 1 : ℕ) : ℤ) =
          (o.2.1 - 1) + (S.ly : ℤ) / 2 := by first | omega | (dsimp only; omega)
      rw [e4, e1, e3] at hstep
      refine ⟨(o.1, o.2.1 - 1, o.2.2),
        ⟨by first | omega | (dsimp only; omega), by first | omega | (dsimp only; omega), by first | omega | (dsimp only; omega), by first | omega | (dsimp only; omega), by first | omega | (dsimp only; omega), by first | omega | (dsimp only; omega), hstep⟩,
        by first | omega | (dsimp only; omega), ?_, ?_⟩
      · simp only [Prod.fst_add, Prod.fst_sub, Prod.snd_add, Prod.snd_sub]
        omega
      · simp only [Prod.fst_add, Prod.fst_sub, Prod.snd_add, Prod.snd_sub]
        refine ⟨by first | omega | (dsimp only; omega), by first | omega | (dsimp only; omega), by first | omega | (dsimp only; omega), by first | omega | (dsimp only; omega), by first | omega | (dsimp only; omega), by first | omega | (dsimp only; omega)⟩
  · by_cases hlt : (o.2.2 + (S.lz : ℤ) / 2).toNat < S.lz / 2
    · rw [if_pos hlt] at hstep
      have ho : o.2.2 < 0 := by first | omega | (dsimp only; omega)
      have e4 : (((o.2.2 + (S.lz : ℤ) / 2).toNat + 1 : ℕ) : ℤ) =
          (o.2.2 + 1) + (S.lz : ℤ) / 2 := by first | omega | (dsimp only; omega)
      rw [e4, e1, e2] at hstep
      refine ⟨(o.1, o.2.1, o.2.2 + 1),
        ⟨by first | omega | (dsimp only; omega), by first | omega | (dsimp only; omega), by first | omega | (dsimp only; omega), by first | omega | (dsimp only; omega), by first | omega | (dsimp only; omega), by first | omega | (dsimp only; omega), hstep⟩,
        by first | omega | (dsimp only; omega), ?_, ?_⟩
      · simp only [Prod.fst_add, Prod.fst_sub, Prod.snd_add, Prod.snd_sub]
        omega
      · simp only [Prod.fst_add, Prod.fst_sub, Prod.snd_add, Prod.snd_sub]
        refine ⟨by first | omega | (dsimp only; omega), by first | omega | (dsimp only; omega), by first | omega | (dsimp only; omega), by first | omega | (dsimp only; omega), by first | omega | (dsimp only; omega), by first | omega | (dsimp only; omega)⟩
    · rw [if_neg hlt] at hstep
      have ho : 0 < o.2.2 := by first | omega | (dsimp only; omega)
      have e4 : (((o.2.2 + (S.lz : ℤ) / 2).toNat - 1 : ℕ) : ℤ) =
          (o.2.2 - 1) + (S.lz : ℤ) / 2 := by first | omega | (dsimp only; omega)
      rw [e4, e1, e2] at hstep
      refine ⟨(o.1, o.2.1, o.2.2 - 1),
        ⟨by first | omega | (dsimp only; omega), by first | omega | (dsimp only; omega), by first | omega | (dsimp only; omega), by first | omega | (dsimp only; omega), by first | omega | (dsimp only; omega), by first | omega | (dsimp only; omega), hstep⟩,
        by first | omega | (dsimp only; omega), ?_, ?_⟩
      · simp only [Prod.fst_add, Prod.fst_sub, Prod.snd_add, Prod.snd_sub]
        omega
      · simp only [Prod.fst_add, Prod.fst_sub, Prod.snd_add, Prod.snd_sub]
        refine ⟨by first | omega | (dsimp only; omega), by first | omega | (dsimp only; omega), by first | omega | (dsimp only; omega), by first | omega | (dsimp only; omega), by first | omega | (dsimp only; omega), by first | omega | (dsimp only; omega)⟩

/-- Point symmetry of the rank-3 element gives footprint symmetry. -/
theorem symmetric3_neg (S : Img3) (hox : S.lx % 2 = 1) (hoy : S.ly % 2 = 1)
    (hoz : S.lz % 2 = 1) (hsym : symmetric3 S) :
    ∀ o : ℤ × ℤ × ℤ, inF3 S o → inF3 S (-o) := by
  rintro o ⟨h1, h2, h3, h4, h5, h6, hp⟩
  have hrx : (S.lx : ℤ) = 2 * ((S.lx : ℤ) / 2) + 1 := by omega
  have hry : (S.ly : ℤ) = 2 * ((S.ly : ℤ) / 2) + 1 := by omega
  have hrz : (S.lz : ℤ) = 2 * ((S.lz : ℤ) / 2) + 1 := by omega
  refine ⟨by simp; omega, by simp; omega, by simp; omega, by simp; omega,
    by simp; omega, by simp; omega, ?_⟩
  have e1 : (((o.1 + (S.lx : ℤ) / 2).toNat : ℕ) : ℤ) = o.1 + (S.lx : ℤ) / 2 := by omega
  have e2 : (((o.2.1 + (S.ly : ℤ) / 2).toNat : ℕ) : ℤ) = o.2.1 + (S.ly : ℤ) / 2 := by
    omega
  have e3 : (((o.2.2 + (S.lz : ℤ) / 2).toNat : ℕ) : ℤ) = o.2.2 + (S.lz : ℤ) / 2 := by
    omega
  have e4 : ((S.lx - 1 - (o.1 + (S.lx : ℤ) / 2).toNat : ℕ) : ℤ) =
      (-o).1 + (S.lx : ℤ) / 2 := by simp; omega
  have e5 : ((S.ly - 1 - (o.2.1 + (S.ly : ℤ) / 2).toNat : ℕ) : ℤ) =
      (-o).2.1 + (S.ly : ℤ) / 2 := by simp; omega
  have e6 : ((S.lz - 1 - (o.2.2 + (S.lz : ℤ) / 2).toNat : ℕ) : ℤ) =
      (-o).2.2 + (S.lz : ℤ) / 2 := by simp; omega
  have h := hsym (o.1 + (S.lx : ℤ) / 2).toNat (by omega)
    (o.2.1 + (S.ly : ℤ) / 2).toNat (by omega) (o.2.2 + (S.lz : ℤ) / 2).toNat (by omega)
  rw [e1, e2, e3, e4, e5, e6] at h
  rw [← h]
  exact hp

/-! ## Rank 3: pixel characterizations -/

theorem binary_dilation3_pix (img S : Img3) (x y z : ℤ) :
    (binary_dilation3 img S).pix x y z = true ↔
      img.pix x y z = true ∨ ∃ i : ℤ × ℤ × ℤ,
        (inB3 img.lx img.ly img.lz i.1 i.2.1 i.2.2 ∧
          perimeter3 img i.1 i.2.1 i.2.2 = true) ∧
        (0 ≤ x ∧ x < (img.lx : ℤ) ∧ 0 ≤ y ∧ y < (img.ly : ℤ) ∧
          0 ≤ z ∧ z < (img.lz : ℤ) ∧ inF3 S (x - i.1, y - i.2.1, z - i.2.2)) := by
  have h : (binary_dilation3 img S).pix x y z =
      ((perim_coords3 img).foldl
        (slice_or3 S (img.lx : ℤ) (img.ly : ℤ) (img.lz : ℤ)) img.pix) x y z := rfl
  rw [h, foldl_slice_or3, Bool.or_eq_true, List.any_eq_true]
  constructor
  · rintro (h | ⟨i, hmem, hcov⟩)
    · exact Or.inl h
    · rw [mem_perim_coords3] at hmem
      rw [sliceCover3_iff] at hcov
      exact Or.inr ⟨i, hmem, hcov⟩
  · rintro (h | ⟨i, hmem, hcov⟩)
    · exact Or.inl h
    · refine Or.inr ⟨i, ?_, ?_⟩
      · rw [mem_perim_coords3]; exact hmem
      · rw [sliceCover3_iff]; exact hcov

theorem reference_dilation3_pix (img S : Img3) (x y z : ℤ) :
    (reference_dilation3 img S).pix x y z = true ↔
      img.pix x y z = true ∨ ∃ i : ℤ × ℤ × ℤ,
        (inB3 img.lx img.ly img.lz i.1 i.2.1 i.2.2 ∧ img.pix i.1 i.2.1 i.2.2 = true) ∧
        (0 ≤ x ∧ x < (img.lx : ℤ) ∧ 0 ≤ y ∧ y < (img.ly : ℤ) ∧
          0 ≤ z ∧ z < (img.lz : ℤ) ∧ inF3 S (x - i.1, y - i.2.1, z - i.2.2)) := by
  have h : (reference_dilation3 img S).pix x y z =
      (img.pix x y z || (fg_coords3 img).any fun i =>
        footprint_hits3 S (img.lx : ℤ) (img.ly : ℤ) (img.lz : ℤ) i x y z) := rfl
  rw [h, Bool.or_eq_true, List.any_eq_true]
  constructor
  · rintro (h | ⟨i, hmem, hcov⟩)
    · exact Or.inl h
    · rw [mem_fg_coords3] at hmem
      rw [footprint_hits3_iff] at hcov
      exact Or.inr ⟨i, hmem, hcov⟩
  · rintro (h | ⟨i, hmem, hcov⟩)
    · exact Or.inl h
    · refine Or.inr ⟨i, ?_, ?_⟩
      · rw [mem_fg_coords3]; exact hmem
      · rw [footprint_hits3_iff]; exact hcov

theorem reference3_as_Dil (img S : Img3) (p : ℤ × ℤ × ℤ)
    (hp : inB3 img.lx img.ly img.lz p.1 p.2.1 p.2.2) :
    (reference_dilation3 img S).pix p.1 p.2.1 p.2.2 = true ↔
      Dil (fun q : ℤ × ℤ × ℤ => inB3 img.lx img.ly img.lz q.1 q.2.1 q.2.2) (inF3 S)
        (fun q => img.pix q.1 q.2.1 q.2.2 = true) p := by
  rw [reference_dilation3_pix]
  unfold Dil
  unfold inB3 at hp
  constructor
  · rintro (h | ⟨i, ⟨hBi, hXi⟩, _, _, _, _, _, _, hF⟩)
    · exact Or.inl h
    · right
      have e : p - (p - i) = i := by abel
      have e2 : p - i = (p.1 - i.1, p.2.1 - i.2.1, p.2.2 - i.2.2) := rfl
      exact ⟨p - i, by rw [e2]; exact hF, by rw [e]; exact hBi, by rw [e]; exact hXi⟩
  · rintro (h | ⟨o, hF, hB, hX⟩)
    · exact Or.inl h
    · right
      have e : p - (p - o) = o := by abel
      have e2 : p - (p - o) = (p.1 - (p - o).1, p.2.1 - (p - o).2.1,
        p.2.2 - (p - o).2.2) := rfl
      refine ⟨p - o, ⟨hB, hX⟩, hp.1, hp.2.1, hp.2.2.1, hp.2.2.2.1, hp.2.2.2.2.1,
        hp.2.2.2.2.2, ?_⟩
      rw [← e2, e]
      exact hF

/-- The rank-3 perimeter-restricted dilation has the spreading denotation
`Dil` for star-shaped structuring elements. -/
theorem dilation3_as_Dil (img S : Img3) (hox : S.lx % 2 = 1) (hoy : S.ly % 2 = 1)
    (hoz : S.lz % 2 = 1) (hstar : star3 S) (p : ℤ × ℤ × ℤ)
    (hp : inB3 img.lx img.ly img.lz p.1 p.2.1 p.2.2) :
    (binary_dilation3 img S).pix p.1 p.2.1 p.2.2 = true ↔
      Dil (fun q : ℤ × ℤ × ℤ => inB3 img.lx img.ly img.lz q.1 q.2.1 q.2.2) (inF3 S)
        (fun q => img.pix q.1 q.2.1 q.2.2 = true) p := by
  rw [binary_dilation3_pix]
  unfold Dil
  constructor
  · rintro (h | ⟨i, ⟨hBi, hper⟩, _, _, _, _, _, _, hF⟩)
    · exact Or.inl h
    · right
      have e : p - (p - i) = i := by abel
      have e2 : p - i = (p.1 - i.1, p.2.1 - i.2.1, p.2.2 - i.2.2) := rfl
      exact ⟨p - i, by rw [e2]; exact hF, by rw [e]; exact hBi,
        by rw [e]; exact perimeter3_pix hper⟩
  · rintro (h | ⟨o, hF, hB, hX⟩)
    · exact Or.inl h
    · have hio : (p - o) + o = p := by abel
      have hres := perim_cover
        (fun q : ℤ × ℤ × ℤ => inB3 img.lx img.ly img.lz q.1 q.2.1 q.2.2) (inF3 S)
        (fun q => img.pix q.1 q.2.1 q.2.2 = true)
        (fun q => perimeter3 img q.1 q.2.1 q.2.2 = true)
        (fun q => q.1.natAbs + q.2.1.natAbs + q.2.2.natAbs)
        (fun i j => (j.1 - i.1).natAbs + (j.2.1 - i.2.1).natAbs +
          (j.2.2 - i.2.2).natAbs = 1)
        (fun i hBi hXi hPi j hAdj hBj =>
          inner3_sound img i.1 i.2.1 i.2.2 hBi hXi (inner3_of_not_perim hXi hPi)
            j.1 j.2.1 j.2.2 hAdj hBj)
        (star3_step S hox hoy hoz hstar img.lx img.ly img.lz)
        (fun o ho => by
          have ho2 : o.1.natAbs + o.2.1.natAbs + o.2.2.natAbs = 0 := ho
          have e : o = (o.1, o.2.1, o.2.2) := rfl
          rw [e]
          have h1 : o.1 = 0 := by omega
          have h2 : o.2.1 = 0 := by omega
          have h3 : o.2.2 = 0 := by omega
          rw [h1, h2, h3]
          rfl)
        (o.1.natAbs + o.2.1.natAbs + o.2.2.natAbs) o (p - o) rfl hF hB hX
        (by rw [hio]; exact hp)
      rw [hio] at hres
      rcases hres with hX2 | ⟨q, hBq, hPq, hFq⟩
      · exact Or.inl hX2
      · unfold inB3 at hp
        have e2 : p - q = (p.1 - q.1, p.2.1 - q.2.1, p.2.2 - q.2.2) := rfl
        refine Or.inr ⟨q, ⟨hBq, hPq⟩, hp.1, hp.2.1, hp.2.2.1, hp.2.2.2.1,
          hp.2.2.2.2.1, hp.2.2.2.2.2, ?_⟩
        rw [← e2]
        exact hFq

/-- Dilation only adds foreground (rank 3). -/
theorem dilation3_sup (img S : Img3) (x y z : ℤ) (h : img.pix x y z = true) :
    (binary_dilation3 img S).pix x y z = true := by
  have e : (binary_dilation3 img S).pix x y z =
      ((perim_coords3 img).foldl
        (slice_or3 S (img.lx : ℤ) (img.ly : ℤ) (img.lz : ℤ)) img.pix) x y z := rfl
  rw [e, foldl_slice_or3, h, Bool.true_or]

/-- Erosion only removes foreground (rank 3). -/
theorem erosion3_sub (img S : Img3) (x y z : ℤ)
    (h : (binary_erosion3 img S).pix x y z = true) : img.pix x y z = true := by
  have e : (binary_erosion3 img S).pix x y z =
      !(binary_dilation3 (compl3 img) S).pix x y z := rfl
  rw [e, Bool.not_eq_true'] at h
  by_cases hp : img.pix x y z = true
  · exact hp
  · exfalso
    have hc : (compl3 img).pix x y z = true := by
      have e2 : (compl3 img).pix x y z = !img.pix x y z := rfl
      rw [e2, Bool.not_eq_true']
      exact Bool.eq_false_iff.mpr hp
    rw [dilation3_sup (compl3 img) S x y z hc] at h
    cases h

theorem erosion3_as_Ero (img S : Img3) (hox : S.lx % 2 = 1) (hoy : S.ly % 2 = 1)
    (hoz : S.lz % 2 = 1) (hstar : star3 S) (p : ℤ × ℤ × ℤ)
    (hp : inB3 img.lx img.ly img.lz p.1 p.2.1 p.2.2) :
    (binary_erosion3 img S).pix p.1 p.2.1 p.2.2 = true ↔
      Ero (fun q : ℤ × ℤ × ℤ => inB3 img.lx img.ly img.lz q.1 q.2.1 q.2.2) (inF3 S)
        (fun q => img.pix q.1 q.2.1 q.2.2 = true) p := by
  have e : (binary_erosion3 img S).pix p.1 p.2.1 p.2.2 =
      !(binary_dilation3 (compl3 img) S).pix p.1 p.2.1 p.2.2 := rfl
  rw [e, Bool.not_eq_true', ← Bool.not_eq_true]
  rw [dilation3_as_Dil (compl3 img) S hox hoy hoz hstar p hp]
  unfold Dil Ero
  have ec : ∀ q : ℤ × ℤ × ℤ,
      ((compl3 img).pix q.1 q.2.1 q.2.2 = true) ↔ ¬(img.pix q.1 q.2.1 q.2.2 = true) := by
    intro q
    have e2 : (compl3 img).pix q.1 q.2.1 q.2.2 = !img.pix q.1 q.2.1 q.2.2 := rfl
    rw [e2, Bool.not_eq_true', Bool.eq_false_iff]
  constructor
  · intro h
    push_neg at h
    obtain ⟨h1, h2⟩ := h
    refine ⟨by_contra fun hc => h1 ((ec p).mpr hc), fun o hF hB => ?_⟩
    by_contra hc
    exact h2 o hF hB ((ec (p - o)).mpr hc)
  · rintro ⟨h1, h2⟩ h
    rcases h with hX | ⟨o, hF, hB, hX⟩
    · exact (ec p).mp hX h1
    · exact (ec (p - o)).mp hX (h2 o hF hB)

theorem opening3_as (img S : Img3) (hox : S.lx % 2 = 1) (hoy : S.ly % 2 = 1)
    (hoz : S.lz % 2 = 1) (hstar : star3 S) (p : ℤ × ℤ × ℤ)
    (hp : inB3 img.lx img.ly img.lz p.1 p.2.1 p.2.2) :
    (binary_opening3 img S).pix p.1 p.2.1 p.2.2 = true ↔
      Dil (fun q : ℤ × ℤ × ℤ => inB3 img.lx img.ly img.lz q.1 q.2.1 q.2.2) (inF3 S)
        (Ero (fun q : ℤ × ℤ × ℤ => inB3 img.lx img.ly img.lz q.1 q.2.1 q.2.2) (inF3 S)
          (fun q => img.pix q.1 q.2.1 q.2.2 = true)) p := by
  have e : binary_opening3 img S = binary_dilation3 (binary_erosion3 img S) S := rfl
  rw [e, dilation3_as_Dil (binary_erosion3 img S) S hox hoy hoz hstar p hp]
  exact Dil_congr (fun q hq => erosion3_as_Ero img S hox hoy hoz hstar q hq) p hp

theorem closing3_as (img S : Img3) (hox : S.lx % 2 = 1) (hoy : S.ly % 2 = 1)
    (hoz : S.lz % 2 = 1) (hstar : star3 S) (p : ℤ × ℤ × ℤ)
    (hp : inB3 img.lx img.ly img.lz p.1 p.2.1 p.2.2) :
    (binary_closing3 img S).pix p.1 p.2.1 p.2.2 = true ↔
      Ero (fun q : ℤ × ℤ × ℤ => inB3 img.lx img.ly img.lz q.1 q.2.1 q.2.2) (inF3 S)
        (Dil (fun q : ℤ × ℤ × ℤ => inB3 img.lx img.ly img.lz q.1 q.2.1 q.2.2) (inF3 S)
          (fun q => img.pix q.1 q.2.1 q.2.2 = true)) p := by
  have e : binary_closing3 img S = binary_erosion3 (binary_dilation3 img S) S := rfl
  rw [e, erosion3_as_Ero (binary_dilation3 img S) S hox hoy hoz hstar p hp]
  exact Ero_congr (fun q hq => dilation3_as_Dil img S hox hoy hoz hstar q hq) p hp

/-! ## Call-level reductions -/

theorem dilation_call_value {I S : Type} (validate : Option S → Except MErr S)
    (core : I → S → I) (img : I) (selem : Option S) (s : S)
    (hv : validate selem = .ok s) :
    dilation_call validate core img selem none = (.ok (some (core img s)), none) := by
  unfold dilation_call
  rw [hv]

theorem dilation_call_buffer {I S : Type} (validate : Option S → Except MErr S)
    (core : I → S → I) (img : I) (selem : Option S) (s : S)
    (hv : validate selem = .ok s) (b : I) :
    dilation_call validate core img selem (some b) = (.ok none, some (core img s)) := by
  unfold dilation_call
  rw [hv]

theorem erosion_call_value {I S : Type} (validate : Option S → Except MErr S)
    (core : I → S → I) (compl : I → I) (img : I) (selem : Option S) (s : S)
    (hv : validate selem = .ok s) :
    erosion_call validate core compl img selem none =
      (.ok (some (compl (core (compl img) s))), none) := by
  unfold erosion_call
  rw [dilation_call_value validate core (compl img) selem s hv]
  rfl

theorem erosion_call_buffer {I S : Type} (validate : Option S → Except MErr S)
    (core : I → S → I) (compl : I → I) (img : I) (selem : Option S) (s : S)
    (hv : validate selem = .ok s) (b : I) :
    erosion_call validate core compl img selem (some b) =
      (.ok none, some (compl (core (compl img) s))) := by
  unfold erosion_call
  rw [dilation_call_buffer validate core (compl img) selem s hv]
  rfl

theorem closing_call_value {I S : Type} (validate : Option S → Except MErr S)
    (core : I → S → I) (compl : I → I) (img : I) (selem : Option S) (s : S)
    (hv : validate selem = .ok s) :
    closing_call validate core compl img selem none =
      (.ok (some (compl (core (compl (core img s)) s))), none) := by
  unfold closing_call
  rw [dilation_call_value validate core img selem s hv]
  exact erosion_call_value validate core compl (core img s) selem s hv

theorem closing_call_buffer {I S : Type} (validate : Option S → Except MErr S)
    (core : I → S → I) (compl : I → I) (img : I) (selem : Option S) (s : S)
    (hv : validate selem = .ok s) (b : I) :
    closing_call validate core compl img selem (some b) =
      (.ok none, some (compl (core (compl (core img s)) s))) := by
  unfold closing_call
  rw [dilation_call_value validate core img selem s hv]
  exact erosion_call_buffer validate core compl (core img s) selem s hv b

theorem opening_call_value {I S : Type} (validate : Option S → Except MErr S)
    (core : I → S → I) (compl : I → I) (img : I) (selem : Option S) (s : S)
    (hv : validate selem = .ok s) :
    opening_call validate core compl img selem none =
      (.ok (some (core (compl (core (compl img) s)) s)), none) := by
  unfold opening_call
  rw [erosion_call_value validate core compl img selem s hv]
  exact dilation_call_value validate core (compl (core (compl img) s)) selem s hv

theorem opening_call_buffer {I S : Type} (validate : Option S → Except MErr S)
    (core : I → S → I) (compl : I → I) (img : I) (selem : Option S) (s : S)
    (hv : validate selem = .ok s) (b : I) :
    opening_call validate core compl img selem (some b) =
      (.ok none, some (core (compl (core (compl img) s)) s)) := by
  unfold opening_call
  rw [erosion_call_value validate core compl img selem s hv]
  exact dilation_call_buffer validate core (compl (core (compl img) s)) selem s hv b

theorem dilation_call_error {I S : Type} (validate : Option S → Except MErr S)
    (core : I → S → I) (img : I) (selem : Option S) (e : MErr)
    (hv : validate selem = .error e) (out : Option I) :
    dilation_call validate core img selem out = (.error e, out) := by
  unfold dilation_call
  rw [hv]

theorem erosion_call_error {I S : Type} (validate : Option S → Except MErr S)
    (core : I → S → I) (compl : I → I) (img : I) (selem : Option S) (e : MErr)
    (hv : validate selem = .error e) (out : Option I) :
    erosion_call validate core compl img selem out = (.error e, out) := by
  unfold erosion_call
  rw [dilation_call_error validate core (compl img) selem e hv out]

theorem closing_call_error {I S : Type} (validate : Option S → Except MErr S)
    (core : I → S → I) (compl : I → I) (img : I) (selem : Option S) (e : MErr)
    (hv : validate selem = .error e) (out : Option I) :
    closing_call validate core compl img selem out = (.error e, out) := by
  unfold closing_call
  rw [dilation_call_error validate core img selem e hv none]

theorem opening_call_error {I S : Type} (validate : Option S → Except MErr S)
    (core : I → S → I) (compl : I → I) (img : I) (selem : Option S) (e : MErr)
    (hv : validate selem = .error e) (out : Option I) :
    opening_call validate core compl img selem out = (.error e, out) := by
  unfold opening_call
  rw [erosion_call_error validate core compl img selem e hv none]

/-! # Claims -/

/-- C4 (counterexample): at the in-range input `center 2, radius 1, element
length 3, axis length 3`, `_generate_array_indices` returns `((1, 4), (0, 2))`:
`result_end = 4` lies outside `[0, 3]`, and the two returned ranges have
lengths `3` and `2`, so the claim that both ends lie within `[0, l]` and that
the ranges have equal length fails as stated. -/
theorem C4_counterexample :
    ((0 : ℤ) ≤ 2 ∧ (2 : ℤ) < 3 ∧ (3 : ℤ) = 2 * 1 + 1) ∧
    generate_array_indices 2 1 3 3 = ((1, 4), (0, 2)) ∧
    ¬((4 : ℤ) ≤ 3) ∧ (4 : ℤ) - 1 ≠ 2 - 0 := by decide

/-- C4 (amended): for every in-range input (`0 ≤ c < l`, odd length
`s = 2r + 1`, `r ≥ 0`), `_generate_array_indices` returns `result_begin`
within `[0, l]`, a structuring-element range within `[0, s]` and nonempty,
both ranges aligned (`result_begin - selem_begin = c - r`), and of equal
length once `result_end` is clipped at `l` the way the Python slice does;
being a total function, it never raises. -/
theorem C4_amended (c r s l : ℤ)
    (hc0 : 0 ≤ c) (hcl : c < l) (hs : s = 2 * r + 1) (hr : 0 ≤ r) :
    0 ≤ (generate_array_indices c r s l).1.1 ∧
    (generate_array_indices c r s l).1.1 ≤ l ∧
    (generate_array_indices c r s l).1.1 ≤ min (generate_array_indices c r s l).1.2 l ∧
    0 ≤ (generate_array_indices c r s l).2.1 ∧
    (generate_array_indices c r s l).2.1 < (generate_array_indices c r s l).2.2 ∧
    (generate_array_indices c r s l).2.2 ≤ s ∧
    (generate_array_indices c r s l).1.1 - (generate_array_indices c r s l).2.1 = c - r ∧
    min (generate_array_indices c r s l).1.2 l - (generate_array_indices c r s l).1.1 =
      (generate_array_indices c r s l).2.2 - (generate_array_indices c r s l).2.1 := by
  simp only [generate_array_indices]
  split_ifs <;> omega

/-- C4 (witness): the amended statement instantiated at
`c = 2, r = 1, s = 3, l = 5`. -/
theorem C4_witness :
    ((0 : ℤ) ≤ 2 ∧ (2 : ℤ) < 5 ∧ (3 : ℤ) = 2 * 1 + 1 ∧ (0 : ℤ) ≤ 1) ∧
    (0 ≤ (generate_array_indices 2 1 3 5).1.1 ∧
     (generate_array_indices 2 1 3 5).1.1 ≤ 5 ∧
     (generate_array_indices 2 1 3 5).1.1 ≤ min (generate_array_indices 2 1 3 5).1.2 5 ∧
     0 ≤ (generate_array_indices 2 1 3 5).2.1 ∧
     (generate_array_indices 2 1 3 5).2.1 < (generate_array_indices 2 1 3 5).2.2 ∧
     (generate_array_indices 2 1 3 5).2.2 ≤ 3 ∧
     (generate_array_indices 2 1 3 5).1.1 - (generate_array_indices 2 1 3 5).2.1 =
       2 - 1 ∧
     min (generate_array_indices 2 1 3 5).1.2 5 - (generate_array_indices 2 1 3 5).1.1 =
       (generate_array_indices 2 1 3 5).2.2 - (generate_array_indices 2 1 3 5).2.1) :=
  ⟨by decide, C4_amended 2 1 3 5 (by decide) (by decide) (by decide) (by decide)⟩

/-- C3 (code evaluated at the failing input): on the rank-1 image
`[1, 1, 1]`, cell `1` has same-state neighbor count `2`, equal to its number
of in-bounds axis neighbors, so the claim says it is interior (excluded from
the perimeter set); but the code's rank-1 branch computes `inner |= image == 2`
(a boolean image compared with the number 2, elementwise false) instead of
`count == 2`, so `inner` stays false and the cell lands in the perimeter
set. -/
theorem C3_failing_input :
    count1 (mkImg1 [true, true, true]) 1 = 2 ∧
    inner1 (mkImg1 [true, true, true]) 1 = false ∧
    perimeter1 (mkImg1 [true, true, true]) 1 = true := by decide

/-- C2 (counterexample): eroding the all-true 3×3×3 cube with the default
axis-cross leaves the corner voxel `(0,0,0)` *true* (the complement image is
all-false, its perimeter is empty, so the dilation of the complement returns
all-false and the final complement is all-true), contradicting the claim
that every non-center voxel is false. -/
theorem C2_counterexample :
    (binary_erosion3 cube3 default_selem3).pix 0 0 0 = true := by decide

/-- C2 (amended): eroding the all-true 3×3×3 cube with the default
axis-cross returns the all-true grid — under the clipped-dilation duality,
out-of-bounds neighbors count as foreground, so border voxels survive. -/
theorem C2_amended :
    ((all_coords3 3 3 3).all fun p =>
      (binary_erosion3 cube3 default_selem3).pix p.1 p.2.1 p.2.2) = true := by decide

/-- C5: for images of rank 1, 2, or 3 and any supplied structuring element
with an even axis extent, all four operations raise the even-axis
`ValueError` (the spec's `InvalidStructuringElement`), and a caller-supplied
output buffer is returned exactly as it was — the validation happens before
`out[:] = image[:]`. -/
theorem C5 :
    (∀ (img S : Img1) (out : Option Img1), S.len % 2 = 0 →
      dilation_call validate_selem1 binary_dilation1 img (some S) out =
        (.error .valueError, out) ∧
      erosion_call validate_selem1 binary_dilation1 compl1 img (some S) out =
        (.error .valueError, out) ∧
      closing_call validate_selem1 binary_dilation1 compl1 img (some S) out =
        (.error .valueError, out) ∧
      opening_call validate_selem1 binary_dilation1 compl1 img (some S) out =
        (.error .valueError, out)) ∧
    (∀ (img S : Img2) (out : Option Img2), S.lx % 2 = 0 ∨ S.ly % 2 = 0 →
      dilation_call validate_selem2 binary_dilation2 img (some S) out =
        (.error .valueError, out) ∧
      erosion_call validate_selem2 binary_dilation2 compl2 img (some S) out =
        (.error .valueError, out) ∧
      closing_call validate_selem2 binary_dilation2 compl2 img (some S) out =
        (.error .valueError, out) ∧
      opening_call validate_selem2 binary_dilation2 compl2 img (some S) out =
        (.error .valueError, out)) ∧
    (∀ (img S : Img3) (out : Option Img3),
      S.lx % 2 = 0 ∨ S.ly % 2 = 0 ∨ S.lz % 2 = 0 →
      dilation_call validate_selem3 binary_dilation3 img (some S) out =
        (.error .valueError, out) ∧
      erosion_call validate_selem3 binary_dilation3 compl3 img (some S) out =
        (.error .valueError, out) ∧
      closing_call validate_selem3 binary_dilation3 compl3 img (some S) out =
        (.error .valueError, out) ∧
      opening_call validate_selem3 binary_dilation3 compl3 img (some S) out =
        (.error .valueError, out)) := by
  refine ⟨fun img S out h => ?_, fun img S out h => ?_, fun img S out h => ?_⟩
  · have hv : validate_selem1 (some S) = .error .valueError := by
      unfold validate_selem1
      dsimp only
      rw [if_pos h]
    exact ⟨dilation_call_error _ _ _ _ _ hv out, erosion_call_error _ _ _ _ _ _ hv out,
      closing_call_error _ _ _ _ _ _ hv out, opening_call_error _ _ _ _ _ _ hv out⟩
  · have hv : validate_selem2 (some S) = .error .valueError := by
      unfold validate_selem2
      dsimp only
      rw [if_pos h]
    exact ⟨dilation_call_error _ _ _ _ _ hv out, erosion_call_error _ _ _ _ _ _ hv out,
      closing_call_error _ _ _ _ _ _ hv out, opening_call_error _ _ _ _ _ _ hv out⟩
  · have hv : validate_selem3 (some S) = .error .valueError := by
      unfold validate_selem3
      dsimp only
      rw [if_pos h]
    exact ⟨dilation_call_error _ _ _ _ _ hv out, erosion_call_error _ _ _ _ _ _ hv out,
      closing_call_error _ _ _ _ _ _ hv out, opening_call_error _ _ _ _ _ _ hv out⟩

/-- C5 (witness): the rank-1 case at a length-2 (even) element with a
supplied buffer, which the failed calls leave untouched. -/
theorem C5_witness :
    (mkImg1 [true, true]).len % 2 = 0 ∧
    (dilation_call validate_selem1 binary_dilation1 (mkImg1 [true])
        (some (mkImg1 [true, true])) (some (mkImg1 [false])) =
      (.error .valueError, some (mkImg1 [false])) ∧
     erosion_call validate_selem1 binary_dilation1 compl1 (mkImg1 [true])
        (some (mkImg1 [true, true])) (some (mkImg1 [false])) =
      (.error .valueError, some (mkImg1 [false])) ∧
     closing_call validate_selem1 binary_dilation1 compl1 (mkImg1 [true])
        (some (mkImg1 [true, true])) (some (mkImg1 [false])) =
      (.error .valueError, some (mkImg1 [false])) ∧
     opening_call validate_selem1 binary_dilation1 compl1 (mkImg1 [true])
        (some (mkImg1 [true, true])) (some (mkImg1 [false])) =
      (.error .valueError, some (mkImg1 [false]))) :=
  ⟨by decide, C5.1 (mkImg1 [true]) (mkImg1 [true, true]) (some (mkImg1 [false]))
    (by decide)⟩

/-- C6 (counterexample): a rank-0 image slips past both the even-axis check
and the `dim > 3` guard; the first slicing statement of
`_get_perimeter_image` then raises numpy's `IndexError`, not the
`RuntimeError` the spec calls `UnsupportedDimensionality`. -/
theorem C6_counterexample :
    dilation_dispatch 0 none true none = (.error .indexError, none) ∧
    MErr.indexError ≠ MErr.runtimeError := ⟨rfl, by decide⟩

/-- C6 (amended): for every image rank at least 4 and a structuring element
that is absent or has all axes odd, all four operations raise the
`RuntimeError` the spec calls `UnsupportedDimensionality`, leaving a
caller-supplied buffer unmodified; a rank-0 image also fails before the
buffer is touched, but with an `IndexError` instead. -/
theorem C6_amended :
    (∀ (γ : Type) (rank : ℕ), 4 ≤ rank → ∀ (sh : Option (List ℕ)),
      (∀ L, sh = some L → ∀ n ∈ L, n % 2 = 1) →
      ∀ (computed : γ) (out : Option γ),
        dilation_dispatch rank sh computed out = (.error .runtimeError, out) ∧
        erosion_dispatch rank sh computed out = (.error .runtimeError, out) ∧
        closing_dispatch rank sh computed out = (.error .runtimeError, out) ∧
        opening_dispatch rank sh computed out = (.error .runtimeError, out)) ∧
    (∀ (γ : Type) (sh : Option (List ℕ)),
      (∀ L, sh = some L → ∀ n ∈ L, n % 2 = 1) →
      ∀ (computed : γ) (out : Option γ),
        dilation_dispatch 0 sh computed out = (.error .indexError, out) ∧
        erosion_dispatch 0 sh computed out = (.error .indexError, out) ∧
        closing_dispatch 0 sh computed out = (.error .indexError, out) ∧
        opening_dispatch 0 sh computed out = (.error .indexError, out)) := by
  have hval : ∀ (sh : Option (List ℕ)), (∀ L, sh = some L → ∀ n ∈ L, n % 2 = 1) →
      (sh.map fun L => L.any fun n => n % 2 = 0) = none ∨
      (sh.map fun L => L.any fun n => n % 2 = 0) = some false := by
    intro sh hsh
    cases sh with
    | none => exact Or.inl rfl
    | some L =>
        right
        show some (L.any fun n => n % 2 = 0) = some false
        have hfalse : (L.any fun n => n % 2 = 0) = false := by
          rw [List.any_eq_false]
          intro n hn
          have := hsh L rfl n hn
          simp only [decide_eq_true_eq]
          omega
        rw [hfalse]
  have key : ∀ (γ : Type) (rank : ℕ) (sh : Option (List ℕ)),
      (∀ L, sh = some L → ∀ n ∈ L, n % 2 = 1) →
      ∀ (computed : γ) (out : Option γ),
        dilation_dispatch rank sh computed out =
          match perimeter_rank_check rank with
          | .error e => (.error e, out)
          | .ok _ => (.ok (), out.map fun _ => computed) := by
    intro γ rank sh hsh computed out
    unfold dilation_dispatch
    rcases hval sh hsh with h | h
    · cases sh with
      | none => rfl
      | some L => cases h
    · cases sh with
      | none => rfl
      | some L =>
          have h2 : some (L.any fun n => n % 2 = 0) = some false := h
          have h3 : (L.any fun n => n % 2 = 0) = false := by injection h2
          simp only [h3]
          rfl
  constructor
  · intro γ rank h4 sh hsh computed out
    have hrc : perimeter_rank_check rank = .error .runtimeError := by
      unfold perimeter_rank_check
      rw [if_pos (by omega)]
    have hd : ∀ out2 : Option γ, dilation_dispatch rank sh computed out2 =
        (.error .runtimeError, out2) := by
      intro out2
      rw [key γ rank sh hsh computed out2, hrc]
    refine ⟨hd out, hd out, ?_, ?_⟩
    · unfold closing_dispatch
      rw [hd none]
    · unfold opening_dispatch
      unfold erosion_dispatch
      rw [hd none]
  · intro γ sh hsh computed out
    have hrc : perimeter_rank_check 0 = .error .indexError := rfl
    have hd : ∀ out2 : Option γ, dilation_dispatch 0 sh computed out2 =
        (.error .indexError, out2) := by
      intro out2
      rw [key γ 0 sh hsh computed out2, hrc]
    refine ⟨hd out, hd out, ?_, ?_⟩
    · unfold closing_dispatch
      rw [hd none]
    · unfold opening_dispatch
      unfold erosion_dispatch
      rw [hd none]

/-- C6 (witness): rank 4 with the default (absent) element and rank 0,
each with a supplied buffer. -/
theorem C6_witness :
    (4 ≤ 4) ∧
    (dilation_dispatch 4 none true (some false) =
        (.error .runtimeError, some false) ∧
     erosion_dispatch 4 none true (some false) = (.error .runtimeError, some false) ∧
     closing_dispatch 4 none true (some false) = (.error .runtimeError, some false) ∧
     opening_dispatch 4 none true (some false) = (.error .runtimeError, some false)) ∧
    (dilation_dispatch 0 none true (some false) = (.error .indexError, some false) ∧
     erosion_dispatch 0 none true (some false) = (.error .indexError, some false) ∧
     closing_dispatch 0 none true (some false) = (.error .indexError, some false) ∧
     opening_dispatch 0 none true (some false) = (.error .indexError, some false)) :=
  ⟨by decide,
   C6_amended.1 Bool 4 (by decide) none (fun L hL => by cases hL) true (some false),
   C6_amended.2 Bool none (fun L hL => by cases hL) true (some false)⟩

/-- C10: for every image of rank 1, 2 or 3 and a valid (absent or all-odd)
structuring element, each operation in buffer mode returns nothing and
leaves the buffer holding exactly the grid the value mode returns — the
buffer is seeded with a copy of the input before the OR pass, so nothing of
its prior contents survives (the final contents below do not depend on `b`)
— while the value mode returns a fresh grid of the input's shape. -/
theorem C10 :
    (∀ (img : Img1) (selem : Option Img1),
      (selem = none ∨ ∃ S, selem = some S ∧ S.len % 2 = 1) →
      ∀ b : Img1, b.len = img.len →
      ∃ s : Img1,
        (dilation_call validate_selem1 binary_dilation1 img selem none =
            (.ok (some (binary_dilation1 img s)), none) ∧
          dilation_call validate_selem1 binary_dilation1 img selem (some b) =
            (.ok none, some (binary_dilation1 img s)) ∧
          (binary_dilation1 img s).len = img.len) ∧
        (erosion_call validate_selem1 binary_dilation1 compl1 img selem none =
            (.ok (some (binary_erosion1 img s)), none) ∧
          erosion_call validate_selem1 binary_dilation1 compl1 img selem (some b) =
            (.ok none, some (binary_erosion1 img s)) ∧
          (binary_erosion1 img s).len = img.len) ∧
        (closing_call validate_selem1 binary_dilation1 compl1 img selem none =
            (.ok (some (binary_closing1 img s)), none) ∧
          closing_call validate_selem1 binary_dilation1 compl1 img selem (some b) =
            (.ok none, some (binary_closing1 img s)) ∧
          (binary_closing1 img s).len = img.len) ∧
        (opening_call validate_selem1 binary_dilation1 compl1 img selem none =
            (.ok (some (binary_opening1 img s)), none) ∧
          opening_call validate_selem1 binary_dilation1 compl1 img selem (some b) =
            (.ok none, some (binary_opening1 img s)) ∧
          (binary_opening1 img s).len = img.len)) ∧
    (∀ (img : Img2) (selem : Option Img2),
      (selem = none ∨ ∃ S, selem = some S ∧ S.lx % 2 = 1 ∧ S.ly % 2 = 1) →
      ∀ b : Img2, b.lx = img.lx ∧ b.ly = img.ly →
      ∃ s : Img2,
        (dilation_call validate_selem2 binary_dilation2 img selem none =
            (.ok (some (binary_dilation2 img s)), none) ∧
          dilation_call validate_selem2 binary_dilation2 img selem (some b) =
            (.ok none, some (binary_dilation2 img s)) ∧
          (binary_dilation2 img s).lx = img.lx ∧ (binary_dilation2 img s).ly = img.ly) ∧
        (erosion_call validate_selem2 binary_dilation2 compl2 img selem none =
            (.ok (some (binary_erosion2 img s)), none) ∧
          erosion_call validate_selem2 binary_dilation2 compl2 img selem (some b) =
            (.ok none, some (binary_erosion2 img s)) ∧
          (binary_erosion2 img s).lx = img.lx ∧ (binary_erosion2 img s).ly = img.ly) ∧
        (closing_call validate_selem2 binary_dilation2 compl2 img selem none =
            (.ok (some (binary_closing2 img s)), none) ∧
          closing_call validate_selem2 binary_dilation2 compl2 img selem (some b) =
            (.ok none, some (binary_closing2 img s)) ∧
          (binary_closing2 img s).lx = img.lx ∧ (binary_closing2 img s).ly = img.ly) ∧
        (opening_call validate_selem2 binary_dilation2 compl2 img selem none =
            (.ok (some (binary_opening2 img s)), none) ∧
          opening_call validate_selem2 binary_dilation2 compl2 img selem (some b) =
            (.ok none, some (binary_opening2 img s)) ∧
          (binary_opening2 img s).lx = img.lx ∧ (binary_opening2 img s).ly = img.ly)) ∧
    (∀ (img : Img3) (selem : Option Img3),
      (selem = none ∨ ∃ S, selem = some S ∧ S.lx % 2 = 1 ∧ S.ly % 2 = 1 ∧ S.lz % 2 = 1) →
      ∀ b : Img3, b.lx = img.lx ∧ b.ly = img.ly ∧ b.lz = img.lz →
      ∃ s : Img3,
        (dilation_call validate_selem3 binary_dilation3 img selem none =
            (.ok (some (binary_dilation3 img s)), none) ∧
          dilation_call validate_selem3 binary_dilation3 img selem (some b) =
            (.ok none, some (binary_dilation3 img s)) ∧
          (binary_dilation3 img s).lx = img.lx ∧ (binary_dilation3 img s).ly = img.ly ∧
            (binary_dilation3 img s).lz = img.lz) ∧
        (erosion_call validate_selem3 binary_dilation3 compl3 img selem none =
            (.ok (some (binary_erosion3 img s)), none) ∧
          erosion_call validate_selem3 binary_dilation3 compl3 img selem (some b) =
            (.ok none, some (binary_erosion3 img s)) ∧
          (binary_erosion3 img s).lx = img.lx ∧ (binary_erosion3 img s).ly = img.ly ∧
            (binary_erosion3 img s).lz = img.lz) ∧
        (closing_call validate_selem3 binary_dilation3 compl3 img selem none =
            (.ok (some (binary_closing3 img s)), none) ∧
          closing_call validate_selem3 binary_dilation3 compl3 img selem (some b) =
            (.ok none, some (binary_closing3 img s)) ∧
          (binary_closing3 img s).lx = img.lx ∧ (binary_closing3 img s).ly = img.ly ∧
            (binary_closing3 img s).lz = img.lz) ∧
        (opening_call validate_selem3 binary_dilation3 compl3 img selem none =
            (.ok (some (binary_opening3 img s)), none) ∧
          opening_call validate_selem3 binary_dilation3 compl3 img selem (some b) =
            (.ok none, some (binary_opening3 img s)) ∧
          (binary_opening3 img s).lx = img.lx ∧ (binary_opening3 img s).ly = img.ly ∧
            (binary_opening3 img s).lz = img.lz)) := by
  refine ⟨fun img selem hval b hb => ?_, fun img selem hval b hb => ?_,
    fun img selem hval b hb => ?_⟩
  · have hv : ∃ s, validate_selem1 selem = .ok s := by
      rcases hval with rfl | ⟨S, rfl, hodd⟩
      · exact ⟨default_selem1, rfl⟩
      · refine ⟨S, ?_⟩
        unfold validate_selem1
        dsimp only
        rw [if_neg (by omega)]
    obtain ⟨s, hv⟩ := hv
    exact ⟨s,
      ⟨dilation_call_value _ _ _ _ _ hv, dilation_call_buffer _ _ _ _ _ hv b, rfl⟩,
      ⟨erosion_call_value _ _ _ _ _ _ hv, erosion_call_buffer _ _ _ _ _ _ hv b, rfl⟩,
      ⟨closing_call_value _ _ _ _ _ _ hv, closing_call_buffer _ _ _ _ _ _ hv b, rfl⟩,
      ⟨opening_call_value _ _ _ _ _ _ hv, opening_call_buffer _ _ _ _ _ _ hv b, rfl⟩⟩
  · have hv : ∃ s, validate_selem2 selem = .ok s := by
      rcases hval with rfl | ⟨S, rfl, hodd⟩
      · exact ⟨default_selem2, rfl⟩
      · refine ⟨S, ?_⟩
        unfold validate_selem2
        dsimp only
        rw [if_neg (by omega)]
    obtain ⟨s, hv⟩ := hv
    exact ⟨s,
      ⟨dilation_call_value _ _ _ _ _ hv, dilation_call_buffer _ _ _ _ _ hv b, rfl, rfl⟩,
      ⟨erosion_call_value _ _ _ _ _ _ hv, erosion_call_buffer _ _ _ _ _ _ hv b,
        rfl, rfl⟩,
      ⟨closing_call_value _ _ _ _ _ _ hv, closing_call_buffer _ _ _ _ _ _ hv b,
        rfl, rfl⟩,
      ⟨opening_call_value _ _ _ _ _ _ hv, opening_call_buffer _ _ _ _ _ _ hv b,
        rfl, rfl⟩⟩
  · have hv : ∃ s, validate_selem3 selem = .ok s := by
      rcases hval with rfl | ⟨S, rfl, hodd⟩
      · exact ⟨default_selem3, rfl⟩
      · refine ⟨S, ?_⟩
        unfold validate_selem3
        dsimp only
        rw [if_neg (by omega)]
    obtain ⟨s, hv⟩ := hv
    exact ⟨s,
      ⟨dilation_call_value _ _ _ _ _ hv, dilation_call_buffer _ _ _ _ _ hv b,
        rfl, rfl, rfl⟩,
      ⟨erosion_call_value _ _ _ _ _ _ hv, erosion_call_buffer _ _ _ _ _ _ hv b,
        rfl, rfl, rfl⟩,
      ⟨closing_call_value _ _ _ _ _ _ hv, closing_call_buffer _ _ _ _ _ _ hv b,
        rfl, rfl, rfl⟩,
      ⟨opening_call_value _ _ _ _ _ _ hv, opening_call_buffer _ _ _ _ _ _ hv b,
        rfl, rfl, rfl⟩⟩

/-- C10 (witness): the rank-1 case at a concrete image, default element, and
a buffer with different prior contents. -/
theorem C10_witness :
    ((mkImg1 [false, false]) = (mkImg1 [false, false]) ∧
      (mkImg1 [false, false]).len = (mkImg1 [true, false]).len) ∧
    (∃ s : Img1,
      (dilation_call validate_selem1 binary_dilation1 (mkImg1 [true, false]) none none =
          (.ok (some (binary_dilation1 (mkImg1 [true, false]) s)), none) ∧
        dilation_call validate_selem1 binary_dilation1 (mkImg1 [true, false]) none
            (some (mkImg1 [false, false])) =
          (.ok none, some (binary_dilation1 (mkImg1 [true, false]) s)) ∧
        (binary_dilation1 (mkImg1 [true, false]) s).len = (mkImg1 [true, false]).len) ∧
      (erosion_call validate_selem1 binary_dilation1 compl1 (mkImg1 [true, false]) none
            none =
          (.ok (some (binary_erosion1 (mkImg1 [true, false]) s)), none) ∧
        erosion_call validate_selem1 binary_dilation1 compl1 (mkImg1 [true, false]) none
            (some (mkImg1 [false, false])) =
          (.ok none, some (binary_erosion1 (mkImg1 [true, false]) s)) ∧
        (binary_erosion1 (mkImg1 [true, false]) s).len = (mkImg1 [true, false]).len) ∧
      (closing_call validate_selem1 binary_dilation1 compl1 (mkImg1 [true, false]) none
            none =
          (.ok (some (binary_closing1 (mkImg1 [true, false]) s)), none) ∧
        closing_call validate_selem1 binary_dilation1 compl1 (mkImg1 [true, false]) none
            (some (mkImg1 [false, false])) =
          (.ok none, some (binary_closing1 (mkImg1 [true, false]) s)) ∧
        (binary_closing1 (mkImg1 [true, false]) s).len = (mkImg1 [true, false]).len) ∧
      (opening_call validate_selem1 binary_dilation1 compl1 (mkImg1 [true, false]) none
            none =
          (.ok (some (binary_opening1 (mkImg1 [true, false]) s)), none) ∧
        opening_call validate_selem1 binary_dilation1 compl1 (mkImg1 [true, false]) none
            (some (mkImg1 [false, false])) =
          (.ok none, some (binary_opening1 (mkImg1 [true, false]) s)) ∧
        (binary_opening1 (mkImg1 [true, false]) s).len = (mkImg1 [true, false]).len)) :=
  ⟨⟨rfl, rfl⟩, C10.1 (mkImg1 [true, false]) none (Or.inl rfl) (mkImg1 [false, false]) rfl⟩

/-- C7: for rank-1/2/3 images and every valid (odd-axis) structuring element
— including one whose center cell is false — dilation keeps every foreground
cell of the input, and every foreground cell of the erosion was foreground
in the input. -/
theorem C7 :
    (∀ (img S : Img1), S.len % 2 = 1 → ∀ x : ℤ, inB1 img.len x →
      (img.pix x = true → (binary_dilation1 img S).pix x = true) ∧
      ((binary_erosion1 img S).pix x = true → img.pix x = true)) ∧
    (∀ (img S : Img2), S.lx % 2 = 1 ∧ S.ly % 2 = 1 →
      ∀ x y : ℤ, inB2 img.lx img.ly x y →
      (img.pix x y = true → (binary_dilation2 img S).pix x y = true) ∧
      ((binary_erosion2 img S).pix x y = true → img.pix x y = true)) ∧
    (∀ (img S : Img3), S.lx % 2 = 1 ∧ S.ly % 2 = 1 ∧ S.lz % 2 = 1 →
      ∀ x y z : ℤ, inB3 img.lx img.ly img.lz x y z →
      (img.pix x y z = true → (binary_dilation3 img S).pix x y z = true) ∧
      ((binary_erosion3 img S).pix x y z = true → img.pix x y z = true)) :=
  ⟨fun img S _ x _ => ⟨dilation1_sup img S x, erosion1_sub img S x⟩,
   fun img S _ x y _ => ⟨dilation2_sup img S x y, erosion2_sub img S x y⟩,
   fun img S _ x y z _ => ⟨dilation3_sup img S x y z, erosion3_sub img S x y z⟩⟩

/-- C7 (witness): the rank-1 case on `[1, 0]` with the element `[1, 0, 1]`
whose center is false, at cell 0. -/
theorem C7_witness :
    ((mkImg1 [true, false, true]).len % 2 = 1 ∧ inB1 (mkImg1 [true, false]).len 0) ∧
    (((mkImg1 [true, false]).pix 0 = true →
      (binary_dilation1 (mkImg1 [true, false]) (mkImg1 [true, false, true])).pix 0 =
        true) ∧
     ((binary_erosion1 (mkImg1 [true, false]) (mkImg1 [true, false, true])).pix 0 =
        true → (mkImg1 [true, false]).pix 0 = true)) :=
  ⟨⟨by decide, by decide⟩,
   C7.1 (mkImg1 [true, false]) (mkImg1 [true, false, true]) (by decide) 0 (by decide)⟩

set_option maxRecDepth 8000 in
/-- C1 (counterexample): the 5×5 C-shaped element `cSelem` has odd extents,
and its true footprint is orthogonally connected and contains its own center,
yet on the 3×6 image `cImg` the perimeter-restricted dilation leaves cell
`(0, 4)` false while the full reference dilation sets it true (the covering
foreground cell `(0, 2)` sits on the image border, is classified interior,
and no perimeter cell reaches `(0, 4)` through the footprint). -/
theorem C1_counterexample :
    (cSelem.lx % 2 = 1 ∧ cSelem.ly % 2 = 1) ∧
    connectedWithCenter2 cSelem ∧
    (binary_dilation2 cImg cSelem).pix 0 4 = false ∧
    (reference_dilation2 cImg cSelem).pix 0 4 = true := by decide

/-- C1 (amended): for every image of rank 1, 2 or 3 and every valid (odd)
structuring element whose true footprint contains its own center and is
*star-shaped towards it* — every nonzero footprint offset can step one cell
towards the center along some axis and stay inside the footprint (a
strengthening of orthogonal connectivity through the center forced by the
counterexample) — the perimeter-restricted dilation agrees with the full
reference dilation at every in-bounds cell. -/
theorem C1_amended :
    (∀ (img S : Img1), S.len % 2 = 1 → S.pix ((S.len / 2 : ℕ) : ℤ) = true →
      star1 S → ∀ x : ℤ, inB1 img.len x →
        (binary_dilation1 img S).pix x = (reference_dilation1 img S).pix x) ∧
    (∀ (img S : Img2), S.lx % 2 = 1 → S.ly % 2 = 1 →
      S.pix ((S.lx / 2 : ℕ) : ℤ) ((S.ly / 2 : ℕ) : ℤ) = true → star2 S →
      ∀ x y : ℤ, inB2 img.lx img.ly x y →
        (binary_dilation2 img S).pix x y = (reference_dilation2 img S).pix x y) ∧
    (∀ (img S : Img3), S.lx % 2 = 1 → S.ly % 2 = 1 → S.lz % 2 = 1 →
      S.pix ((S.lx / 2 : ℕ) : ℤ) ((S.ly / 2 : ℕ) : ℤ) ((S.lz / 2 : ℕ) : ℤ) = true →
      star3 S → ∀ x y z : ℤ, inB3 img.lx img.ly img.lz x y z →
        (binary_dilation3 img S).pix x y z = (reference_dilation3 img S).pix x y z) := by
  refine ⟨fun img S hodd hc hstar x hx => ?_,
    fun img S hox hoy hc hstar x y hxy => ?_,
    fun img S hox hoy hoz hc hstar x y z hxyz => ?_⟩
  · exact bool_eq_of_iff ((dilation1_as_Dil img S hodd hstar x hx).trans
      (reference1_as_Dil img S x hx).symm)
  · exact bool_eq_of_iff ((dilation2_as_Dil img S hox hoy hstar (x, y) hxy).trans
      (reference2_as_Dil img S (x, y) hxy).symm)
  · exact bool_eq_of_iff
      ((dilation3_as_Dil img S hox hoy hoz hstar (x, y, z) hxyz).trans
        (reference3_as_Dil img S (x, y, z) hxyz).symm)

/-- C1 (witness): the rank-1 instance on `[0, 1, 0]` with the default
all-true element at cell 2. -/
theorem C1_witness :
    (default_selem1.len % 2 = 1 ∧
      default_selem1.pix ((default_selem1.len / 2 : ℕ) : ℤ) = true ∧
      star1 default_selem1 ∧ inB1 (mkImg1 [false, true, false]).len 2) ∧
    (binary_dilation1 (mkImg1 [false, true, false]) default_selem1).pix 2 =
      (reference_dilation1 (mkImg1 [false, true, false]) default_selem1).pix 2 :=
  ⟨⟨by decide, by decide, by decide, by decide⟩,
   C1_amended.1 (mkImg1 [false, true, false]) default_selem1 (by decide) (by decide)
     (by decide) 2 (by decide)⟩

/-- C8 (counterexample): with the valid (odd) but asymmetric element
`[1, 1, 0]`, opening the rank-1 image `[0, 1, 1]` yields foreground at cell
0 where the input is background, so `open(X, S) ⊆ X` fails as stated. -/
theorem C8_counterexample :
    ((mkImg1 [true, true, false]).len % 2 = 1) ∧
    (binary_opening1 (mkImg1 [false, true, true]) (mkImg1 [true, true, false])).pix 0 =
      true ∧
    (mkImg1 [false, true, true]).pix 0 = false := by decide

/-- C8 (amended): for every image of rank 1, 2 or 3 and every valid (odd)
structuring element that is additionally point-symmetric about its center
and star-shaped towards it, opening is anti-extensive and closing is
extensive at every in-bounds cell. -/
theorem C8_amended :
    (∀ (img S : Img1), S.len % 2 = 1 → symmetric1 S → star1 S →
      ∀ x : ℤ, inB1 img.len x →
        ((binary_opening1 img S).pix x = true → img.pix x = true) ∧
        (img.pix x = true → (binary_closing1 img S).pix x = true)) ∧
    (∀ (img S : Img2), S.lx % 2 = 1 → S.ly % 2 = 1 → symmetric2 S → star2 S →
      ∀ x y : ℤ, inB2 img.lx img.ly x y →
        ((binary_opening2 img S).pix x y = true → img.pix x y = true) ∧
        (img.pix x y = true → (binary_closing2 img S).pix x y = true)) ∧
    (∀ (img S : Img3), S.lx % 2 = 1 → S.ly % 2 = 1 → S.lz % 2 = 1 →
      symmetric3 S → star3 S →
      ∀ x y z : ℤ, inB3 img.lx img.ly img.lz x y z →
        ((binary_opening3 img S).pix x y z = true → img.pix x y z = true) ∧
        (img.pix x y z = true → (binary_closing3 img S).pix x y z = true)) := by
  refine ⟨fun img S hodd hsym hstar x hx => ⟨fun h => ?_, fun h => ?_⟩,
    fun img S hox hoy hsym hstar x y hxy => ⟨fun h => ?_, fun h => ?_⟩,
    fun img S hox hoy hoz hsym hstar x y z hxyz => ⟨fun h => ?_, fun h => ?_⟩⟩
  · exact opening_sub_self (symmetric1_neg S hodd hsym) x hx
      ((opening1_as img S hodd hstar x hx).mp h)
  · exact (closing1_as img S hodd hstar x hx).mpr
      (closing_sup_self (symmetric1_neg S hodd hsym) x hx h)
  · exact opening_sub_self (symmetric2_neg S hox hoy hsym) (x, y) hxy
      ((opening2_as img S hox hoy hstar (x, y) hxy).mp h)
  · exact (closing2_as img S hox hoy hstar (x, y) hxy).mpr
      (closing_sup_self (symmetric2_neg S hox hoy hsym) (x, y) hxy h)
  · exact opening_sub_self (symmetric3_neg S hox hoy hoz hsym) (x, y, z) hxyz
      ((opening3_as img S hox hoy hoz hstar (x, y, z) hxyz).mp h)
  · exact (closing3_as img S hox hoy hoz hstar (x, y, z) hxyz).mpr
      (closing_sup_self (symmetric3_neg S hox hoy hoz hsym) (x, y, z) hxyz h)

/-- C8 (witness): the rank-1 instance on `[0, 1, 0]` with the default
element at cell 1. -/
theorem C8_witness :
    (default_selem1.len % 2 = 1 ∧ symmetric1 default_selem1 ∧ star1 default_selem1 ∧
      inB1 (mkImg1 [false, true, false]).len 1) ∧
    (((binary_opening1 (mkImg1 [false, true, false]) default_selem1).pix 1 = true →
        (mkImg1 [false, true, false]).pix 1 = true) ∧
     ((mkImg1 [false, true, false]).pix 1 = true →
        (binary_closing1 (mkImg1 [false, true, false]) default_selem1).pix 1 = true)) :=
  ⟨⟨by decide, by decide, by decide, by decide⟩,
   C8_amended.1 (mkImg1 [false, true, false]) default_selem1 (by decide) (by decide)
     (by decide) 1 (by decide)⟩

/-- C9 (counterexample): with the valid (odd) asymmetric element `[1, 1, 0]`
and the rank-1 image `[1, 1, 0, 1, 1]`, the opening has cell 0 true but the
twice-applied opening has it false, so `open(open(X,S),S) = open(X,S)` fails
as stated. -/
theorem C9_counterexample :
    ((mkImg1 [true, true, false]).len % 2 = 1) ∧
    (binary_opening1 (mkImg1 [true, true, false, true, true])
        (mkImg1 [true, true, false])).pix 0 = true ∧
    (binary_opening1 (binary_opening1 (mkImg1 [true, true, false, true, true])
        (mkImg1 [true, true, false])) (mkImg1 [true, true, false])).pix 0 = false := by
  decide

/-- C9 (amended): for every image of rank 1, 2 or 3 and every valid (odd)
structuring element that is additionally point-symmetric about its center
and star-shaped towards it, opening and closing are idempotent at every
in-bounds cell. -/
theorem C9_amended :
    (∀ (img S : Img1), S.len % 2 = 1 → symmetric1 S → star1 S →
      ∀ x : ℤ, inB1 img.len x →
        (binary_opening1 (binary_opening1 img S) S).pix x =
          (binary_opening1 img S).pix x ∧
        (binary_closing1 (binary_closing1 img S) S).pix x =
          (binary_closing1 img S).pix x) ∧
    (∀ (img S : Img2), S.lx % 2 = 1 → S.ly % 2 = 1 → symmetric2 S → star2 S →
      ∀ x y : ℤ, inB2 img.lx img.ly x y →
        (binary_opening2 (binary_opening2 img S) S).pix x y =
          (binary_opening2 img S).pix x y ∧
        (binary_closing2 (binary_closing2 img S) S).pix x y =
          (binary_closing2 img S).pix x y) ∧
    (∀ (img S : Img3), S.lx % 2 = 1 → S.ly % 2 = 1 → S.lz % 2 = 1 →
      symmetric3 S → star3 S →
      ∀ x y z : ℤ, inB3 img.lx img.ly img.lz x y z →
        (binary_opening3 (binary_opening3 img S) S).pix x y z =
          (binary_opening3 img S).pix x y z ∧
        (binary_closing3 (binary_closing3 img S) S).pix x y z =
          (binary_closing3 img S).pix x y z) := by
  refine ⟨fun img S hodd hsym hstar x hx => ?_,
    fun img S hox hoy hsym hstar x y hxy => ?_,
    fun img S hox hoy hoz hsym hstar x y z hxyz => ?_⟩
  · have hSymm := symmetric1_neg S hodd hsym
    constructor
    · refine bool_eq_of_iff ?_
      have h1 := opening1_as (binary_opening1 img S) S hodd hstar x hx
      have h2 := opening1_as img S hodd hstar
      exact h1.trans
        ((Dil_congr (fun y hy => Ero_congr (fun w hw => h2 w hw) y hy) x hx).trans
          ((open_idem_abstract hSymm x hx).trans (h2 x hx).symm))
    · refine bool_eq_of_iff ?_
      have h1 := closing1_as (binary_closing1 img S) S hodd hstar x hx
      have h2 := closing1_as img S hodd hstar
      exact h1.trans
        ((Ero_congr (fun y hy => Dil_congr (fun w hw => h2 w hw) y hy) x hx).trans
          ((close_idem_abstract hSymm x hx).trans (h2 x hx).symm))
  · have hSymm := symmetric2_neg S hox hoy hsym
    constructor
    · refine bool_eq_of_iff ?_
      have h1 := opening2_as (binary_opening2 img S) S hox hoy hstar (x, y) hxy
      have h2 := opening2_as img S hox hoy hstar
      exact h1.trans
        ((Dil_congr (fun q hq => Ero_congr (fun w hw => h2 w hw) q hq) (x, y) hxy).trans
          ((open_idem_abstract hSymm (x, y) hxy).trans (h2 (x, y) hxy).symm))
    · refine bool_eq_of_iff ?_
      have h1 := closing2_as (binary_closing2 img S) S hox hoy hstar (x, y) hxy
      have h2 := closing2_as img S hox hoy hstar
      exact h1.trans
        ((Ero_congr (fun q hq => Dil_congr (fun w hw => h2 w hw) q hq) (x, y) hxy).trans
          ((close_idem_abstract hSymm (x, y) hxy).trans (h2 (x, y) hxy).symm))
  · have hSymm := symmetric3_neg S hox hoy hoz hsym
    constructor
    · refine bool_eq_of_iff ?_
      have h1 := opening3_as (binary_opening3 img S) S hox hoy hoz hstar (x, y, z) hxyz
      have h2 := opening3_as img S hox hoy hoz hstar
      exact h1.trans
        ((Dil_congr (fun q hq => Ero_congr (fun w hw => h2 w hw) q hq)
            (x, y, z) hxyz).trans
          ((open_idem_abstract hSymm (x, y, z) hxyz).trans (h2 (x, y, z) hxyz).symm))
    · refine bool_eq_of_iff ?_
      have h1 := closing3_as (binary_closing3 img S) S hox hoy hoz hstar (x, y, z) hxyz
      have h2 := closing3_as img S hox hoy hoz hstar
      exact h1.trans
        ((Ero_congr (fun q hq => Dil_congr (fun w hw => h2 w hw) q hq)
            (x, y, z) hxyz).trans
          ((close_idem_abstract hSymm (x, y, z) hxyz).trans (h2 (x, y, z) hxyz).symm))

/-- C9 (witness): the rank-1 instance on `[0, 1, 0]` with the default
element at cell 1. -/
theorem C9_witness :
    (default_selem1.len % 2 = 1 ∧ symmetric1 default_selem1 ∧ star1 default_selem1 ∧
      inB1 (mkImg1 [false, true, false]).len 1) ∧
    ((binary_opening1 (binary_opening1 (mkImg1 [false, true, false]) default_selem1)
        default_selem1).pix 1 =
      (binary_opening1 (mkImg1 [false, true, false]) default_selem1).pix 1 ∧
     (binary_closing1 (binary_closing1 (mkImg1 [false, true, false]) default_selem1)
        default_selem1).pix 1 =
      (binary_closing1 (mkImg1 [false, true, false]) default_selem1).pix 1) :=
  ⟨⟨by decide, by decide, by decide, by decide⟩,
   C9_amended.1 (mkImg1 [false, true, false]) default_selem1 (by decide) (by decide)
     (by decide) 1 (by decide)⟩
